import Mathlib

/-!
Shallow embedding of the OpenShift workload simulator core (`src/simulator.js`).

Modelling conventions:
* JS numbers carrying resource quantities (CPU cores, memory GB) are modelled as `ℚ`;
  replica counts, node counts and counters are `Nat`.
* JS object references are modelled by stable identifiers: a `WorkerNode` carries a
  numeric identity `nid` (the value of the simulator's `nodeCounter` at creation time,
  which strictly increases, so identities are unique), and a `Pod` stores the `nid` of
  the node it is bound to.  The namespace table (a string-keyed JS object with unique
  keys) is a list of namespaces with unique names; in-place mutation of the object
  held in the table becomes "replace the first entry with that name".
* `Array.prototype.sort` with comparator `(a, b) => a.cpuAllocated - b.cpuAllocated`
  is a stable ascending sort, modelled by a stable insertion sort.
* `Math.random()`-driven replica counts in `setSimulatedWorkloadFactor` are modelled
  by an explicit stream `rng : Nat → Nat`; `Math.floor(Math.random()*3)+1 ∈ {1,2,3}`
  becomes `rng i % 3 + 1`.
* Fallible operations return their JS result (`Option _` for object-or-null, `Bool`)
  paired with the post state.
-/

namespace OpenShiftSim

/- Let `decide`/`rfl` evaluate the model on concrete states: the kernel is
perfectly able to reduce the rational-number primitives, they are merely
marked irreducible for the elaborator by default. -/
set_option allowUnsafeReducibility true
attribute [local semireducible] Rat.add Rat.mul Rat.sub Rat.neg Rat.div Rat.inv
  Rat.blt Rat.normalize Rat.divInt Rat.ofScientific mkRat

def RESERVED_CPU : ℚ := 2
def RESERVED_MEMORY : ℚ := 4

inductive PodStatus where
  | Pending
  | Running
  deriving DecidableEq, Repr

structure Pod where
  name : String
  cpuRequest : ℚ
  memoryRequest : ℚ
  status : PodStatus
  node : Option Nat
  deriving DecidableEq, Repr

structure WorkerNode where
  nid : Nat
  name : String
  cpuCapacity : ℚ
  memoryCapacity : ℚ
  cpuAllocated : ℚ
  memoryAllocated : ℚ
  pods : List Pod
  deriving DecidableEq, Repr

def WorkerNode.allocatableCpu (n : WorkerNode) : ℚ :=
  max 0 (n.cpuCapacity - RESERVED_CPU)

def WorkerNode.allocatableMemory (n : WorkerNode) : ℚ :=
  max 0 (n.memoryCapacity - RESERVED_MEMORY)

/-- `WorkerNode.allocateResources` unconditionally increments the counters and
returns `true` (the node accounting layer performs no capacity check). -/
def WorkerNode.allocateResources (n : WorkerNode) (cpu memory : ℚ) : Bool × WorkerNode :=
  (true,
    { n with cpuAllocated := n.cpuAllocated + cpu,
             memoryAllocated := n.memoryAllocated + memory })

/-- Decrement, clamped at 0 in each dimension separately. -/
def WorkerNode.deallocateResources (n : WorkerNode) (cpu memory : ℚ) : WorkerNode :=
  let c := n.cpuAllocated - cpu
  let m := n.memoryAllocated - memory
  { n with cpuAllocated := if c < 0 then 0 else c,
           memoryAllocated := if m < 0 then 0 else m }

def WorkerNode.addPod (n : WorkerNode) (pod : Pod) : WorkerNode :=
  { n with pods := n.pods ++ [pod] }

/-- `removePod` removes the first occurrence found by `indexOf` (a no-op when the
pod is not present). -/
def WorkerNode.removePod (n : WorkerNode) (pod : Pod) : WorkerNode :=
  { n with pods := n.pods.erase pod }

structure Namespace where
  name : String
  cpuQuota : ℚ
  memoryQuota : ℚ
  deployments : List String
  cpuAllocated : ℚ
  memoryAllocated : ℚ
  deriving DecidableEq, Repr

/-- Quota-checked allocation: commits iff both dimensions stay within quota. -/
def Namespace.allocateResources (ns : Namespace) (cpu memory : ℚ) : Bool × Namespace :=
  if ns.cpuAllocated + cpu ≤ ns.cpuQuota ∧ ns.memoryAllocated + memory ≤ ns.memoryQuota then
    (true, { ns with cpuAllocated := ns.cpuAllocated + cpu,
                     memoryAllocated := ns.memoryAllocated + memory })
  else
    (false, ns)

def Namespace.deallocateResources (ns : Namespace) (cpu memory : ℚ) : Namespace :=
  let c := ns.cpuAllocated - cpu
  let m := ns.memoryAllocated - memory
  { ns with cpuAllocated := if c < 0 then 0 else c,
            memoryAllocated := if m < 0 then 0 else m }

structure Deployment where
  name : String
  namespaceName : String
  replicaCount : Nat
  cpuRequestPerReplica : ℚ
  memoryRequestPerReplica : ℚ
  pods : List Pod
  deriving DecidableEq, Repr

/-- The pod list built by `Deployment.createPods`: `replicaCount` fresh pods named
`{name}-{i}`, all `Pending` and unbound. -/
def mkPods (depName : String) (replicaCount : Nat) (cpuPer memPer : ℚ) : List Pod :=
  (List.range replicaCount).map (fun i =>
    { name := depName ++ "-" ++ toString i, cpuRequest := cpuPer, memoryRequest := memPer,
      status := PodStatus.Pending, node := none })

def Deployment.createPods (d : Deployment) : Deployment :=
  { d with pods := mkPods d.name d.replicaCount d.cpuRequestPerReplica d.memoryRequestPerReplica }

structure SimState where
  workerNodes : List WorkerNode
  namespaces : List Namespace
  deployments : List Deployment
  simulatedWorkloadFactor : ℚ
  nodeCounter : Nat
  deriving DecidableEq, Repr

/-- Update every node carrying the given identity (unique in reachable states),
modelling in-place mutation through a JS object reference. -/
def updateNode (nodes : List WorkerNode) (nid : Nat) (f : WorkerNode → WorkerNode) :
    List WorkerNode :=
  nodes.map (fun n => if n.nid = nid then f n else n)

/-- Replace the first namespace with the given name, modelling mutation of the
object stored under that (unique) key of the JS namespace table. -/
def replaceFirstNs (l : List Namespace) (name : String) (f : Namespace → Namespace) :
    List Namespace :=
  match l with
  | [] => []
  | ns :: rest => if ns.name = name then f ns :: rest else ns :: replaceFirstNs rest name f

/-- Replace the first deployment with the given name (`deployments.find` returns the
first match and the JS code mutates that object in place). -/
def replaceFirstDep (l : List Deployment) (name : String) (f : Deployment → Deployment) :
    List Deployment :=
  match l with
  | [] => []
  | d :: rest => if d.name = name then f d :: rest else d :: replaceFirstDep rest name f

def lookupNamespace (s : SimState) (name : String) : Option Namespace :=
  s.namespaces.find? (fun ns => ns.name = name)

/-- `addWorkerNode(name, cpu = 128.0, memory = 1500.0)`; a missing or empty name is
falsy in JS and replaced by `worker-node-{counter}`. -/
def addWorkerNode (s : SimState) (name : Option String) (cpu memory : ℚ) :
    WorkerNode × SimState :=
  let counter := s.nodeCounter + 1
  let nodeName :=
    match name with
    | some n => if n = "" then "worker-node-" ++ toString counter else n
    | none => "worker-node-" ++ toString counter
  let node : WorkerNode :=
    { nid := counter, name := nodeName, cpuCapacity := cpu,
      memoryCapacity := memory, cpuAllocated := 0, memoryAllocated := 0, pods := [] }
  (node, { s with workerNodes := s.workerNodes ++ [node], nodeCounter := counter })

/-- Append `k` nodes with the default capacities, as the grow loop of
`setTotalWorkerNodes` (and the constructor) does. -/
def addWorkerNodesLoop (s : SimState) : Nat → SimState
  | 0 => s
  | k + 1 => addWorkerNodesLoop (addWorkerNode s none 128 1500).2 k

/-- Stable insertion of a node into a list sorted ascending by `cpuAllocated`:
an incoming (originally later) node goes after existing equal keys. -/
def insertNodeByCpu (a : WorkerNode) : List WorkerNode → List WorkerNode
  | [] => [a]
  | b :: l =>
    if a.cpuAllocated ≤ b.cpuAllocated then a :: b :: l else b :: insertNodeByCpu a l

/-- `[...this.workerNodes].sort((a, b) => a.cpuAllocated - b.cpuAllocated)`:
stable ascending sort by `cpuAllocated` (ties keep original pool order). -/
def sortNodesByCpu : List WorkerNode → List WorkerNode
  | [] => []
  | a :: l => insertNodeByCpu a (sortNodesByCpu l)

def bindPod (pod : Pod) (nid : Nat) : Pod :=
  { pod with status := PodStatus.Running, node := some nid }

/-- The `deployment.pods.forEach` loop of `allocateDeploymentPods`: each `Pending`
pod scans `sortedNodes` and binds to the first node whose `allocateResources`
returns `true` — which is always the first node of `order`, since
`WorkerNode.allocateResources` unconditionally returns `true`.  A pod stays
`Pending` only when the node list is empty. -/
def placePodsLoop (order : List Nat) : List Pod → List WorkerNode → List Pod × List WorkerNode
  | [], nodes => ([], nodes)
  | pod :: rest, nodes =>
    match pod.status, order with
    | PodStatus.Pending, nid :: _ =>
      let pod' := bindPod pod nid
      let nodes' := updateNode nodes nid (fun n =>
        ((n.allocateResources pod.cpuRequest pod.memoryRequest).2).addPod pod')
      let res := placePodsLoop order rest nodes'
      (pod' :: res.1, res.2)
    | _, _ =>
      let res := placePodsLoop order rest nodes
      (pod :: res.1, res.2)

/-- `allocateDeploymentPods(deployment)`; the deployment reference is modelled by
its position `i` in the deployment list. -/
def allocateDeploymentPods (s : SimState) (i : Nat) : SimState :=
  match s.deployments[i]? with
  | none => s
  | some dep =>
    let order := (sortNodesByCpu s.workerNodes).map (fun n => n.nid)
    let res := placePodsLoop order dep.pods s.workerNodes
    { s with workerNodes := res.2,
             deployments := s.deployments.set i { dep with pods := res.1 } }

def resetNodeAllocation (n : WorkerNode) : WorkerNode :=
  { n with cpuAllocated := 0, memoryAllocated := 0, pods := [] }

def resetDeploymentPods (d : Deployment) : Deployment :=
  { d with pods := d.pods.map (fun p => { p with status := PodStatus.Pending, node := none }) }

/-- `reallocateAllPods()`: wipe node accounting, mark every pod pending and unbound,
then re-place deployment by deployment in list order. -/
def reallocateAllPods (s : SimState) : SimState :=
  let s1 := { s with workerNodes := s.workerNodes.map resetNodeAllocation,
                     deployments := s.deployments.map resetDeploymentPods }
  (List.range s1.deployments.length).foldl allocateDeploymentPods s1

def setTotalWorkerNodes (s : SimState) (targetCount : Nat) : Bool × SimState :=
  let currentCount := s.workerNodes.length
  if targetCount < currentCount then
    (true, reallocateAllPods { s with workerNodes := s.workerNodes.take targetCount })
  else if currentCount < targetCount then
    (true, reallocateAllPods (addWorkerNodesLoop s (targetCount - currentCount)))
  else
    (true, s)

def createNamespace (s : SimState) (name : String) (cpuQuota memoryQuota : ℚ) :
    Option Namespace × SimState :=
  match lookupNamespace s name with
  | some _ => (none, s)
  | none =>
    let ns : Namespace :=
      { name := name, cpuQuota := cpuQuota, memoryQuota := memoryQuota,
        deployments := [], cpuAllocated := 0, memoryAllocated := 0 }
    (some ns, { s with namespaces := s.namespaces ++ [ns] })

def addDeployment (s : SimState) (name namespaceName : String) (replicaCount : Nat)
    (cpuRequestPerReplica memoryRequestPerReplica : ℚ) : Option Deployment × SimState :=
  match lookupNamespace s namespaceName with
  | none => (none, s)
  | some ns =>
    let totalCpuNeeded := (replicaCount : ℚ) * cpuRequestPerReplica
    let totalMemoryNeeded := (replicaCount : ℚ) * memoryRequestPerReplica
    let res := ns.allocateResources totalCpuNeeded totalMemoryNeeded
    if res.1 then
      let dep : Deployment := Deployment.createPods
        { name := name, namespaceName := namespaceName, replicaCount := replicaCount,
          cpuRequestPerReplica := cpuRequestPerReplica,
          memoryRequestPerReplica := memoryRequestPerReplica, pods := [] }
      let i := s.deployments.length
      let s1 :=
        { s with
          namespaces := replaceFirstNs s.namespaces namespaceName
            (fun n => { res.2 with deployments := n.deployments ++ [dep.name] }),
          deployments := s.deployments ++ [dep] }
      let s2 := allocateDeploymentPods s1 i
      (s2.deployments[i]?, s2)
    else
      (none, s)

def unbindPodFromNode (nodes : List WorkerNode) (pod : Pod) : List WorkerNode :=
  match pod.node with
  | some nid => updateNode nodes nid (fun n =>
      (n.deallocateResources pod.cpuRequest pod.memoryRequest).removePod pod)
  | none => nodes

def unbindPods (nodes : List WorkerNode) (pods : List Pod) : List WorkerNode :=
  pods.foldl unbindPodFromNode nodes

def scaleDeployment (s : SimState) (name : String) (newReplicaCount : Nat) : Bool × SimState :=
  match s.deployments.find? (fun d => d.name = name) with
  | none => (false, s)
  | some dep =>
    match lookupNamespace s dep.namespaceName with
    | none => (false, s)
    | some ns =>
      let oldTotalCpu := (dep.replicaCount : ℚ) * dep.cpuRequestPerReplica
      let oldTotalMemory := (dep.replicaCount : ℚ) * dep.memoryRequestPerReplica
      let newTotalCpu := (newReplicaCount : ℚ) * dep.cpuRequestPerReplica
      let newTotalMemory := (newReplicaCount : ℚ) * dep.memoryRequestPerReplica
      let ns1 := ns.deallocateResources oldTotalCpu oldTotalMemory
      let nodes1 := unbindPods s.workerNodes dep.pods
      let dep1 := Deployment.createPods { dep with replicaCount := newReplicaCount }
      let s1 := { s with workerNodes := nodes1,
                         namespaces := replaceFirstNs s.namespaces dep.namespaceName (fun _ => ns1),
                         deployments := replaceFirstDep s.deployments name (fun _ => dep1) }
      let res := ns1.allocateResources newTotalCpu newTotalMemory
      if res.1 then
        let s2 :=
          { s1 with
            namespaces := replaceFirstNs s1.namespaces dep.namespaceName (fun _ => res.2) }
        (true, allocateDeploymentPods s2 (s2.deployments.findIdx (fun d => d.name = name)))
      else
        let ns3 := (ns1.allocateResources oldTotalCpu oldTotalMemory).2
        (false,
          { s1 with
            namespaces := replaceFirstNs s1.namespaces dep.namespaceName (fun _ => ns3) })

def deleteDeployment (s : SimState) (name : String) : Bool × SimState :=
  match s.deployments.findIdx? (fun d => d.name = name) with
  | none => (false, s)
  | some i =>
    match s.deployments[i]? with
    | none => (false, s)
    | some dep =>
      let totalCpu := (dep.replicaCount : ℚ) * dep.cpuRequestPerReplica
      let totalMemory := (dep.replicaCount : ℚ) * dep.memoryRequestPerReplica
      let namespaces1 := replaceFirstNs s.namespaces dep.namespaceName (fun n =>
        let n1 := n.deallocateResources totalCpu totalMemory
        { n1 with deployments := n1.deployments.erase dep.name })
      let nodes1 := unbindPods s.workerNodes dep.pods
      (true, { s with workerNodes := nodes1, namespaces := namespaces1,
                      deployments := s.deployments.eraseIdx i })

def simNsName (i : Nat) : String := "sim-ns-" ++ toString i

def simDepName (i j : Nat) : String := "sim-dep-" ++ toString i ++ "-" ++ toString j

/-- Inner loop of `setSimulatedWorkloadFactor`: synthesize the deployments of one
namespace.  A deployment's replica count is drawn from `{1, 2, 3}` via the random
stream; per-replica requests are its even share, floored at `0.01`. -/
def synthesizeDeployments (rng : Nat → Nat) (i numDeploymentsPerNs : Nat)
    (cpuPerDeployment memoryPerDeployment : ℚ) (s : SimState) : SimState :=
  (List.range numDeploymentsPerNs).foldl (fun s j =>
    let replicaCount := rng (i * numDeploymentsPerNs + j) % 3 + 1
    let cpuPerReplica := max (0.01 : ℚ) (cpuPerDeployment / (replicaCount : ℚ))
    let memoryPerReplica := max (0.01 : ℚ) (memoryPerDeployment / (replicaCount : ℚ))
    (addDeployment s (simDepName i j) (simNsName i) replicaCount
      cpuPerReplica memoryPerReplica).2) s

def setSimulatedWorkloadFactor (s : SimState) (factor : ℚ) (rng : Nat → Nat) :
    Bool × SimState :=
  if factor < 0 ∨ 1 < factor then (false, s)
  else
    let s1 := { s with simulatedWorkloadFactor := factor,
                       workerNodes := s.workerNodes.map resetNodeAllocation,
                       namespaces := [], deployments := [] }
    if 0 < factor then
      let totalAllocatableCpu := (s1.workerNodes.map WorkerNode.allocatableCpu).sum
      let totalAllocatableMemory := (s1.workerNodes.map WorkerNode.allocatableMemory).sum
      let numNamespaces := max 1 (min 10 (Int.toNat ⌈factor * 10⌉))
      let numDeploymentsPerNs := max 1 (min 10 (Int.toNat ⌈factor * 10⌉))
      let avgCpuPerNs := totalAllocatableCpu / (numNamespaces : ℚ)
      let avgMemoryPerNs := totalAllocatableMemory / (numNamespaces : ℚ)
      let s2 := (List.range numNamespaces).foldl (fun s i =>
        let s' := (createNamespace s (simNsName i)
          (avgCpuPerNs * (1.2 : ℚ)) (avgMemoryPerNs * (1.2 : ℚ))).2
        let targetCpuForNs := totalAllocatableCpu * factor / (numNamespaces : ℚ)
        let targetMemoryForNs := totalAllocatableMemory * factor / (numNamespaces : ℚ)
        synthesizeDeployments rng i numDeploymentsPerNs
          (targetCpuForNs / (numDeploymentsPerNs : ℚ))
          (targetMemoryForNs / (numDeploymentsPerNs : ℚ)) s') s1
      (true, s2)
    else
      (true, s1)

def emptySim : SimState :=
  { workerNodes := [], namespaces := [], deployments := [],
    simulatedWorkloadFactor := 0, nodeCounter := 0 }

/-- The `OpenShiftSimulator` constructor: three default worker nodes. -/
def initialSimulator : SimState := addWorkerNodesLoop emptySim 3

/-! Derived notions used to state the claims. -/

def cpuSum (pods : List Pod) : ℚ := (pods.map Pod.cpuRequest).sum

def memSum (pods : List Pod) : ℚ := (pods.map Pod.memoryRequest).sum

/-- All pods of all deployments, in deployment-list order. -/
def allPods (s : SimState) : List Pod := (s.deployments.map Deployment.pods).flatten

/-- The pods of `pods` currently bound to the node with identity `nid`. -/
def boundTo (pods : List Pod) (nid : Nat) : List Pod :=
  pods.filter (fun p => p.node = some nid)

/-- Modelled from the spec's words: the node with minimal `cpuAllocated`,
ties broken by original pool order. -/
def firstMinCpuNode (nodes : List WorkerNode) : Option WorkerNode :=
  nodes.find? (fun n => nodes.all (fun m => n.cpuAllocated ≤ m.cpuAllocated))

/-- The identity-carrying fields of a node, unaffected by (re)allocation. -/
def nodeIdFields (n : WorkerNode) : Nat × String × ℚ × ℚ :=
  (n.nid, n.name, n.cpuCapacity, n.memoryCapacity)

/-- The fields of a deployment that placement never changes. -/
def depFields (d : Deployment) : String × String × Nat × ℚ × ℚ :=
  (d.name, d.namespaceName, d.replicaCount, d.cpuRequestPerReplica, d.memoryRequestPerReplica)

/-- Aggregate CPU footprint (`cpuRequestPerReplica * replicaCount`) of the
deployments of a list registered in the namespace named `nm`. -/
def depsCpuSum (l : List Deployment) (nm : String) : ℚ :=
  ((l.filter (fun d => d.namespaceName = nm)).map
    (fun d => (d.replicaCount : ℚ) * d.cpuRequestPerReplica)).sum

/-- Aggregate memory footprint of the deployments of a list registered in `nm`. -/
def depsMemSum (l : List Deployment) (nm : String) : ℚ :=
  ((l.filter (fun d => d.namespaceName = nm)).map
    (fun d => (d.replicaCount : ℚ) * d.memoryRequestPerReplica)).sum

/-- Aggregate CPU footprint of the deployments registered in namespace `nsName`. -/
def nsCpuSum (s : SimState) (nsName : String) : ℚ := depsCpuSum s.deployments nsName

/-- Aggregate memory footprint of the deployments registered in `nsName`. -/
def nsMemSum (s : SimState) (nsName : String) : ℚ := depsMemSum s.deployments nsName

/-- The externally reachable mutating operations of the simulator. -/
inductive Op where
  | addWorkerNode (name : Option String) (cpu memory : ℚ)
  | setTotalWorkerNodes (targetCount : Nat)
  | createNamespace (name : String) (cpuQuota memoryQuota : ℚ)
  | addDeployment (name namespaceName : String) (replicaCount : Nat) (cpuPer memPer : ℚ)
  | scaleDeployment (name : String) (newReplicaCount : Nat)
  | deleteDeployment (name : String)
  | setSimulatedWorkloadFactor (factor : ℚ) (rng : Nat → Nat)

def applyOp (s : SimState) : Op → SimState
  | Op.addWorkerNode name cpu memory => (addWorkerNode s name cpu memory).2
  | Op.setTotalWorkerNodes t => (setTotalWorkerNodes s t).2
  | Op.createNamespace n c m => (createNamespace s n c m).2
  | Op.addDeployment n ns rc c m => (addDeployment s n ns rc c m).2
  | Op.scaleDeployment n k => (scaleDeployment s n k).2
  | Op.deleteDeployment n => (deleteDeployment s n).2
  | Op.setSimulatedWorkloadFactor f rng => (setSimulatedWorkloadFactor s f rng).2

def runOps (s : SimState) (ops : List Op) : SimState := ops.foldl applyOp s

/-- The interface contract of `addDeployment` (spec section 6): positive
per-replica requests.  All other operations accept any argument. -/
def validOp : Op → Bool
  | Op.addDeployment _ _ _ cpuPer memPer => decide (0 < cpuPer) && decide (0 < memPer)
  | _ => true

/-- Whether `op`, run from `s`, reports success when it is a `scaleDeployment`
(non-scaling operations count as successes). -/
def scaleOkOp (s : SimState) : Op → Bool
  | Op.scaleDeployment n k => (scaleDeployment s n k).1
  | _ => true

/-- Every `scaleDeployment` in the sequence, run from `s`, returns `true`. -/
def scalesOk (s : SimState) : List Op → Bool
  | [] => true
  | op :: rest => scaleOkOp s op && scalesOk (applyOp s op) rest

/-! Concrete states used as witnesses (the spec's section-8 scenario). -/

def demoBase : SimState := (createNamespace initialSimulator "a" 10 100).2

def demoDeployed : SimState := (addDeployment demoBase "d1" "a" 2 3 40).2

def demoSingle : SimState := (addDeployment demoBase "d" "a" 1 3 40).2

/-- The namespace `"a"` as stored in `demoBase`. -/
def demoNsFresh : Namespace :=
  { name := "a", cpuQuota := 10, memoryQuota := 100, deployments := [],
    cpuAllocated := 0, memoryAllocated := 0 }

/-- The namespace `"a"` as stored in `demoDeployed`. -/
def demoNsLoaded : Namespace :=
  { name := "a", cpuQuota := 10, memoryQuota := 100, deployments := ["d1"],
    cpuAllocated := 6, memoryAllocated := 80 }

/-- A namespace with a negative CPU quota. -/
def demoNsNeg : Namespace :=
  { name := "x", cpuQuota := -1, memoryQuota := 0, deployments := [],
    cpuAllocated := 0, memoryAllocated := 0 }

/-- First replica of `"d1"` in `demoDeployed`, bound to node 1. -/
def demoPodD1x0 : Pod :=
  { name := "d1-0", cpuRequest := 3, memoryRequest := 40,
    status := PodStatus.Running, node := some 1 }

/-- Second replica of `"d1"` in `demoDeployed`, also bound to node 1. -/
def demoPodD1x1 : Pod :=
  { name := "d1-1", cpuRequest := 3, memoryRequest := 40,
    status := PodStatus.Running, node := some 1 }

/-- The deployment `"d1"` as stored in `demoDeployed`. -/
def demoDepD1 : Deployment :=
  { name := "d1", namespaceName := "a", replicaCount := 2, cpuRequestPerReplica := 3,
    memoryRequestPerReplica := 40, pods := [demoPodD1x0, demoPodD1x1] }

/-- The single replica of `"d"` in `demoSingle`, bound to node 1. -/
def demoPodD0 : Pod :=
  { name := "d-0", cpuRequest := 3, memoryRequest := 40,
    status := PodStatus.Running, node := some 1 }

/-- The deployment `"d"` as stored in `demoSingle`. -/
def demoDepD : Deployment :=
  { name := "d", namespaceName := "a", replicaCount := 1, cpuRequestPerReplica := 3,
    memoryRequestPerReplica := 40, pods := [demoPodD0] }

/-- The namespace `"a"` as stored in `demoSingle`. -/
def demoNsSingle : Namespace :=
  { name := "a", cpuQuota := 10, memoryQuota := 100, deployments := ["d"],
    cpuAllocated := 3, memoryAllocated := 40 }

/-- Node-level accounting invariant relative to the pod population `ps`: every
node's pod list is (a permutation of) the pods of `ps` bound to it, and its
allocated counters are the sums of requests over its pod list. -/
def NodeAccounting (nodes : List WorkerNode) (ps : List Pod) : Prop :=
  ∀ n ∈ nodes,
    n.pods.Perm (boundTo ps n.nid)
    ∧ n.cpuAllocated = cpuSum n.pods
    ∧ n.memoryAllocated = memSum n.pods

/-- Deployment well-formedness: positive per-replica requests, and each pod
carries exactly the deployment's per-replica requests. -/
def DepWf (s : SimState) : Prop :=
  ∀ d ∈ s.deployments,
    0 < d.cpuRequestPerReplica ∧ 0 < d.memoryRequestPerReplica
    ∧ ∀ p ∈ d.pods,
        p.cpuRequest = d.cpuRequestPerReplica ∧ p.memoryRequest = d.memoryRequestPerReplica

/-- Full invariant for node-accounting reasoning. -/
def InvA (s : SimState) : Prop :=
  NodeAccounting s.workerNodes (allPods s)
  ∧ DepWf s
  ∧ (∀ n ∈ s.workerNodes, n.nid ≤ s.nodeCounter)
  ∧ (∀ p ∈ allPods s, p.status = PodStatus.Pending → p.node = none)
  ∧ (∀ p ∈ allPods s, ∀ nid, p.node = some nid → nid ∈ s.workerNodes.map WorkerNode.nid)

/-- The operation sequence of the spec's section-8 scenario. -/
def demoOps : List Op :=
  [Op.createNamespace "a" 10 100, Op.addDeployment "d1" "a" 2 3 40]

/-- Namespace-level accounting: every namespace's allocated counters equal the
aggregate footprints of the deployments currently registered under its name. -/
def NsAccounting (s : SimState) : Prop :=
  ∀ ns ∈ s.namespaces,
    ns.cpuAllocated = nsCpuSum s ns.name ∧ ns.memoryAllocated = nsMemSum s ns.name

/-- Full invariant for namespace-accounting reasoning: unique namespace names,
every deployment's namespace exists, positive per-replica requests, and the
accounting equations. -/
def InvB (s : SimState) : Prop :=
  (s.namespaces.map Namespace.name).Nodup
  ∧ (∀ d ∈ s.deployments, d.namespaceName ∈ s.namespaces.map Namespace.name)
  ∧ (∀ d ∈ s.deployments, 0 < d.cpuRequestPerReplica ∧ 0 < d.memoryRequestPerReplica)
  ∧ NsAccounting s

/-- A run ending in a `scaleDeployment` whose new footprint `4 * (3, 40)`
exceeds the namespace quota `(10, 100)`: the scale fails. -/
def demoOpsScaleFail : List Op :=
  [Op.createNamespace "a" 10 100, Op.addDeployment "d" "a" 1 3 40,
   Op.scaleDeployment "d" 4]

/-- A run ending in a successful `scaleDeployment` (new footprint `2 * (3, 40)`
fits the quota `(10, 100)`). -/
def demoOpsScaleOk : List Op :=
  [Op.createNamespace "a" 10 100, Op.addDeployment "d" "a" 1 3 40,
   Op.scaleDeployment "d" 2]

/-! ### Claim theorems -/

/-! Arithmetic and filtering helpers for the accounting invariants. -/

theorem cpuSum_append (l l' : List Pod) : cpuSum (l ++ l') = cpuSum l + cpuSum l' := by
  unfold cpuSum
  rw [List.map_append, List.sum_append]

theorem memSum_append (l l' : List Pod) : memSum (l ++ l') = memSum l + memSum l' := by
  unfold memSum
  rw [List.map_append, List.sum_append]

theorem cpuSum_perm {l l' : List Pod} (h : l.Perm l') : cpuSum l = cpuSum l' :=
  (h.map Pod.cpuRequest).sum_eq

theorem memSum_perm {l l' : List Pod} (h : l.Perm l') : memSum l = memSum l' :=
  (h.map Pod.memoryRequest).sum_eq

theorem cpuSum_nonneg {l : List Pod} (h : ∀ p ∈ l, 0 < p.cpuRequest) : 0 ≤ cpuSum l := by
  apply List.sum_nonneg
  intro x hx
  rcases List.mem_map.mp hx with ⟨p, hp, rfl⟩
  exact le_of_lt (h p hp)

theorem memSum_nonneg {l : List Pod} (h : ∀ p ∈ l, 0 < p.memoryRequest) : 0 ≤ memSum l := by
  apply List.sum_nonneg
  intro x hx
  rcases List.mem_map.mp hx with ⟨p, hp, rfl⟩
  exact le_of_lt (h p hp)

theorem boundTo_append (ps qs : List Pod) (nid : Nat) :
    boundTo (ps ++ qs) nid = boundTo ps nid ++ boundTo qs nid := by
  unfold boundTo
  rw [List.filter_append]

theorem boundTo_cons_of_bound (p : Pod) (ps : List Pod) (nid : Nat) (h : p.node = some nid) :
    boundTo (p :: ps) nid = p :: boundTo ps nid := by
  unfold boundTo
  rw [List.filter_cons_of_pos (by simpa using h)]

theorem boundTo_cons_of_not_bound (p : Pod) (ps : List Pod) (nid : Nat)
    (h : ¬p.node = some nid) :
    boundTo (p :: ps) nid = boundTo ps nid := by
  unfold boundTo
  rw [List.filter_cons_of_neg (by simpa using h)]

theorem boundTo_eq_nil (ps : List Pod) (nid : Nat) (h : ∀ p ∈ ps, ¬p.node = some nid) :
    boundTo ps nid = [] := by
  unfold boundTo
  rw [List.filter_eq_nil_iff]
  intro p hp
  simpa using h p hp

theorem boundTo_sublist (ps : List Pod) (nid : Nat) : (boundTo ps nid).Sublist ps :=
  List.filter_sublist ps

theorem boundTo_perm {ps qs : List Pod} (nid : Nat) (h : ps.Perm qs) :
    (boundTo ps nid).Perm (boundTo qs nid) :=
  h.filter _

theorem nodeAccounting_perm {nodes : List WorkerNode} {ps qs : List Pod}
    (h : ps.Perm qs) (hacc : NodeAccounting nodes ps) : NodeAccounting nodes qs := by
  intro n hn
  rcases hacc n hn with ⟨h1, h2, h3⟩
  exact ⟨h1.trans (boundTo_perm n.nid h), h2, h3⟩

/-- Inserting unbound pods anywhere in the population does not change any
node's bound-pod set. -/
theorem nodeAccounting_insert_unbound {nodes : List WorkerNode} {X Y : List Pod}
    (qs : List Pod) (hq : ∀ p ∈ qs, p.node = none)
    (hacc : NodeAccounting nodes (X ++ Y)) : NodeAccounting nodes (X ++ qs ++ Y) := by
  intro n hn
  rcases hacc n hn with ⟨h1, h2, h3⟩
  refine ⟨?_, h2, h3⟩
  have hqnil : boundTo qs n.nid = [] :=
    boundTo_eq_nil qs n.nid (fun p hp => by rw [hq p hp]; simp)
  rw [boundTo_append, boundTo_append, hqnil, List.append_nil, ← boundTo_append]
  exact h1

theorem getElem?_eq_decomp {α : Type} :
    ∀ (l : List α) (i : Nat) (a : α), l[i]? = some a →
      l = l.take i ++ a :: l.drop (i + 1) := by
  intro l
  induction l with
  | nil => intro i a h; simp at h
  | cons x t ih =>
    intro i a h
    cases i with
    | zero =>
      simp only [List.getElem?_cons_zero, Option.some.injEq] at h
      simp [h]
    | succ j =>
      simp only [List.getElem?_cons_succ] at h
      simp only [List.take_succ_cons, List.drop_succ_cons, List.cons_append, List.cons.injEq]
      exact ⟨trivial, ih j a h⟩

theorem set_eq_decomp {α : Type} :
    ∀ (l : List α) (i : Nat) (a b : α), l[i]? = some a →
      l.set i b = l.take i ++ b :: l.drop (i + 1) := by
  intro l
  induction l with
  | nil => intro i a b h; simp at h
  | cons x t ih =>
    intro i a b h
    cases i with
    | zero => simp
    | succ j =>
      simp only [List.getElem?_cons_succ] at h
      simp only [List.set_cons_succ, List.take_succ_cons, List.drop_succ_cons,
        List.cons_append, List.cons.injEq]
      exact ⟨trivial, ih j a b h⟩

theorem eraseIdx_eq_decomp {α : Type} :
    ∀ (l : List α) (i : Nat) (a : α), l[i]? = some a →
      l.eraseIdx i = l.take i ++ l.drop (i + 1) := by
  intro l
  induction l with
  | nil => intro i a h; simp at h
  | cons x t ih =>
    intro i a h
    cases i with
    | zero => simp
    | succ j =>
      simp only [List.getElem?_cons_succ] at h
      simp only [List.eraseIdx_cons_succ, List.take_succ_cons, List.drop_succ_cons,
        List.cons_append, List.cons.injEq]
      exact ⟨trivial, ih j a h⟩

/-- `allPods` of a state whose deployment list decomposes around index `i`. -/
theorem allPods_of_list (A B : List Deployment) (d : Deployment) :
    ((A ++ d :: B).map Deployment.pods).flatten =
      (A.map Deployment.pods).flatten ++ d.pods ++ (B.map Deployment.pods).flatten := by
  rw [List.map_append, List.flatten_append, List.map_cons, List.flatten_cons,
    List.append_assoc]

/-! Helper lemmas about the stable sort used by placement. -/

theorem insertNodeByCpu_perm (a : WorkerNode) (l : List WorkerNode) :
    (insertNodeByCpu a l).Perm (a :: l) := by
  induction l with
  | nil => exact List.Perm.refl _
  | cons b t ih =>
    unfold insertNodeByCpu
    split
    · exact List.Perm.refl _
    · exact (ih.cons b).trans (List.Perm.swap a b t)

theorem sortNodesByCpu_perm (l : List WorkerNode) : (sortNodesByCpu l).Perm l := by
  induction l with
  | nil => exact List.Perm.refl _
  | cons a t ih =>
    exact (insertNodeByCpu_perm a (sortNodesByCpu t)).trans (ih.cons a)

theorem insertNodeByCpu_pairwise (a : WorkerNode) (l : List WorkerNode)
    (h : l.Pairwise (fun x y => x.cpuAllocated ≤ y.cpuAllocated)) :
    (insertNodeByCpu a l).Pairwise (fun x y => x.cpuAllocated ≤ y.cpuAllocated) := by
  induction l with
  | nil => simp [insertNodeByCpu]
  | cons b t ih =>
    unfold insertNodeByCpu
    split
    next hab =>
      refine List.Pairwise.cons ?_ h
      intro m hm
      rcases List.mem_cons.mp hm with rfl | hm
      · exact hab
      · exact le_trans hab ((List.pairwise_cons.mp h).1 m hm)
    next hab =>
      rcases List.pairwise_cons.mp h with ⟨hb, ht⟩
      refine List.pairwise_cons.mpr ⟨?_, ih ht⟩
      intro m hm
      have hm' := (insertNodeByCpu_perm a t).mem_iff.mp hm
      rcases List.mem_cons.mp hm' with rfl | hm'
      · exact le_of_not_le hab
      · exact hb m hm'

theorem sortNodesByCpu_pairwise (l : List WorkerNode) :
    (sortNodesByCpu l).Pairwise (fun x y => x.cpuAllocated ≤ y.cpuAllocated) := by
  induction l with
  | nil => simp [sortNodesByCpu]
  | cons a t ih => exact insertNodeByCpu_pairwise a (sortNodesByCpu t) ih

theorem find?_congr_on {α : Type} (p q : α → Bool) :
    ∀ l : List α, (∀ x ∈ l, p x = q x) → l.find? p = l.find? q := by
  intro l
  induction l with
  | nil => intro _; rfl
  | cons a t ih =>
    intro h
    have ha := h a (List.mem_cons_self a t)
    by_cases hpa : p a = true
    · rw [List.find?_cons_of_pos _ hpa, List.find?_cons_of_pos _ (by rw [← ha]; exact hpa)]
    · have hqa : ¬ q a = true := by rw [← ha]; exact hpa
      rw [List.find?_cons_of_neg _ hpa, List.find?_cons_of_neg _ hqa]
      exact ih (fun x hx => h x (List.mem_cons_of_mem a hx))

/-- The head of the stable sort is exactly the spec's chosen node: the first node
of the pool attaining the minimal `cpuAllocated`. -/
theorem head?_sortNodesByCpu (l : List WorkerNode) :
    (sortNodesByCpu l).head? = firstMinCpuNode l := by
  induction l with
  | nil => rfl
  | cons a t ih =>
    unfold sortNodesByCpu
    rcases hsort : sortNodesByCpu t with _ | ⟨h, r⟩
    · have ht : t = [] := by
        have hp := sortNodesByCpu_perm t
        rw [hsort] at hp
        exact hp.symm.eq_nil
      subst ht
      simp [insertNodeByCpu, firstMinCpuNode]
    · have hfind : t.find?
          (fun n => t.all (fun m => n.cpuAllocated ≤ m.cpuAllocated)) = some h := by
        have := ih
        rw [hsort] at this
        exact this.symm
      have hmem : h ∈ t := List.mem_of_find?_eq_some hfind
      have hmin : ∀ m ∈ t, h.cpuAllocated ≤ m.cpuAllocated := by
        intro m hm
        have hs := sortNodesByCpu_pairwise t
        rw [hsort] at hs
        have hm' : m ∈ h :: r := by
          rw [← hsort]
          exact (sortNodesByCpu_perm t).mem_iff.mpr hm
        rcases List.mem_cons.mp hm' with rfl | hm'
        · exact le_refl _
        · exact (List.pairwise_cons.mp hs).1 m hm'
      unfold insertNodeByCpu
      split
      next hle =>
        have hpa : ((a :: t).all (fun m => a.cpuAllocated ≤ m.cpuAllocated)) = true := by
          simp only [List.all_eq_true, decide_eq_true_eq]
          intro m hm
          rcases List.mem_cons.mp hm with rfl | hm
          · exact le_refl _
          · exact le_trans hle (hmin m hm)
        have hstep : firstMinCpuNode (a :: t) = some a :=
          List.find?_cons_of_pos _ hpa
        rw [hstep]
        rfl
      next hgt =>
        have hnota : ¬ ((a :: t).all (fun m => a.cpuAllocated ≤ m.cpuAllocated)) = true := by
          simp only [List.all_eq_true, decide_eq_true_eq]
          intro hall
          exact hgt (hall h (List.mem_cons_of_mem a hmem))
        have hcong : ∀ n ∈ t,
            ((a :: t).all (fun m => n.cpuAllocated ≤ m.cpuAllocated)) =
              (t.all (fun m => n.cpuAllocated ≤ m.cpuAllocated)) := by
          intro n hn
          by_cases hpt : (t.all (fun m => n.cpuAllocated ≤ m.cpuAllocated)) = true
          · have hnh : n.cpuAllocated ≤ h.cpuAllocated := by
              have := List.all_eq_true.mp hpt h hmem
              exact decide_eq_true_eq.mp this
            have hna : n.cpuAllocated ≤ a.cpuAllocated :=
              le_trans hnh (le_of_not_le hgt)
            rw [List.all_cons, hpt]
            simp [hna]
          · have hpt' : (t.all (fun m => n.cpuAllocated ≤ m.cpuAllocated)) = false :=
              Bool.eq_false_iff.mpr hpt
            rw [List.all_cons, hpt']
            simp
        have hstep : firstMinCpuNode (a :: t) =
            List.find? (fun n => (a :: t).all (fun m => n.cpuAllocated ≤ m.cpuAllocated)) t :=
          List.find?_cons_of_neg _ hnota
        rw [hstep, find?_congr_on _ _ t hcong, hfind]
        rfl

theorem set_getElem?_self {α : Type} :
    ∀ (l : List α) (i : Nat) (a : α), l[i]? = some a → l.set i a = l := by
  intro l
  induction l with
  | nil => intro i a h; simp at h
  | cons x t ih =>
    intro i a h
    cases i with
    | zero =>
      simp only [List.getElem?_cons_zero, Option.some.injEq] at h
      rw [List.set_cons_zero, h]
    | succ j =>
      simp only [List.getElem?_cons_succ] at h
      rw [List.set_cons_succ, ih j a h]

theorem placePodsLoop_nil_order (pods : List Pod) (nodes : List WorkerNode) :
    placePodsLoop [] pods nodes = (pods, nodes) := by
  induction pods with
  | nil => rfl
  | cons p t ih =>
    unfold placePodsLoop
    cases hst : p.status <;> simp [ih]

/-- With a nonempty candidate list, every pending pod is bound to the first
candidate (allocation on a node never fails), others are untouched. -/
theorem placePodsLoop_cons_order_fst (nid : Nat) (tl : List Nat) :
    ∀ (pods : List Pod) (nodes : List WorkerNode),
      (placePodsLoop (nid :: tl) pods nodes).1 =
        pods.map (fun p => if p.status = PodStatus.Pending then bindPod p nid else p) := by
  intro pods
  induction pods with
  | nil => intro nodes; rfl
  | cons p t ih =>
    intro nodes
    unfold placePodsLoop
    cases hst : p.status <;> simp [ih, hst]

/-- C3: `Namespace.allocateResources(cpu, memory)` succeeds and commits iff both
`cpuAllocated + cpu ≤ cpuQuota` and `memoryAllocated + memory ≤ memoryQuota`; on
failure neither allocated counter changes.  Consequently `addDeployment` into a
namespace whose quota the aggregate request would exceed returns null and leaves
the namespace (indeed the whole state) unchanged. -/
theorem claim_C3 :
    ∀ (ns : Namespace) (cpu memory : ℚ),
      ((ns.allocateResources cpu memory).1 = true ↔
        (ns.cpuAllocated + cpu ≤ ns.cpuQuota ∧ ns.memoryAllocated + memory ≤ ns.memoryQuota))
      ∧ ((ns.allocateResources cpu memory).1 = true →
          (ns.allocateResources cpu memory).2 =
            { ns with cpuAllocated := ns.cpuAllocated + cpu,
                      memoryAllocated := ns.memoryAllocated + memory })
      ∧ ((ns.allocateResources cpu memory).1 = false →
          (ns.allocateResources cpu memory).2 = ns)
      ∧ ∀ (s : SimState) (name namespaceName : String) (replicaCount : Nat)
          (cpuPer memPer : ℚ) (nsFound : Namespace),
          lookupNamespace s namespaceName = some nsFound →
          ¬(nsFound.cpuAllocated + (replicaCount : ℚ) * cpuPer ≤ nsFound.cpuQuota ∧
            nsFound.memoryAllocated + (replicaCount : ℚ) * memPer ≤ nsFound.memoryQuota) →
          addDeployment s name namespaceName replicaCount cpuPer memPer = (none, s) := by
  intro ns cpu memory
  refine ⟨?_, ?_, ?_, ?_⟩
  · unfold Namespace.allocateResources
    split
    next h => simpa using h
    next h => simpa using h
  · unfold Namespace.allocateResources
    split
    next h => intro _; rfl
    next h => intro hh; simp at hh
  · unfold Namespace.allocateResources
    split
    next h => intro hh; simp at hh
    next h => intro _; rfl
  · intro s name namespaceName replicaCount cpuPer memPer nsFound hlook hq
    unfold addDeployment
    rw [hlook]
    have hfail : (nsFound.allocateResources ((replicaCount : ℚ) * cpuPer)
        ((replicaCount : ℚ) * memPer)).1 = false := by
      unfold Namespace.allocateResources
      rw [if_neg hq]
    simp only [hfail, Bool.false_eq_true, if_false]

/-- C3 witness: the spec's section-8 scenario: after `addDeployment("d1","a",2,3,40)`
the namespace holds (6, 80) of quota (10, 100), and `addDeployment("d2","a",1,5,30)`
would need (11, 110), exceeds quota, and is rejected with no state change. -/
theorem claim_C3_witness :
    addDeployment demoDeployed "d2" "a" 1 5 30 = (none, demoDeployed) :=
  (claim_C3 demoNsLoaded 5 30).2.2.2 demoDeployed "d2" "a" 1 5 30 demoNsLoaded
    (by decide) (by decide)

/-- C8: `createNamespace` with a name already present in the table returns null
and leaves the whole state (in particular the existing namespace and the
namespace table) unchanged. -/
theorem claim_C8 :
    ∀ (s : SimState) (name : String) (cpuQuota memoryQuota : ℚ) (ns : Namespace),
      lookupNamespace s name = some ns →
      createNamespace s name cpuQuota memoryQuota = (none, s) := by
  intro s name cpuQuota memoryQuota ns h
  unfold createNamespace
  rw [h]

/-- C8 witness: re-creating the namespace `"a"` of the demo state is rejected and
changes nothing. -/
theorem claim_C8_witness :
    createNamespace demoBase "a" 5 5 = (none, demoBase) :=
  claim_C8 demoBase "a" 5 5 demoNsFresh (by decide)

/-- C10: `createNamespace` validates nothing: any fresh name succeeds and the
namespace is stored with exactly the given quotas (zero or negative included)
and zero allocation; and against a namespace with nonpositive `cpuQuota` or
`memoryQuota` (and nonnegative counters) every positive allocation fails the
quota check. -/
theorem claim_C10 :
    ∀ (s : SimState) (name : String) (cpuQuota memoryQuota : ℚ),
      (lookupNamespace s name = none →
        createNamespace s name cpuQuota memoryQuota =
          (some { name := name, cpuQuota := cpuQuota, memoryQuota := memoryQuota,
                  deployments := [], cpuAllocated := 0, memoryAllocated := 0 },
           { s with namespaces := s.namespaces ++
              [{ name := name, cpuQuota := cpuQuota, memoryQuota := memoryQuota,
                 deployments := [], cpuAllocated := 0, memoryAllocated := 0 }] }))
      ∧ ∀ (ns : Namespace) (cpu memory : ℚ),
          0 ≤ ns.cpuAllocated → 0 ≤ ns.memoryAllocated →
          (ns.cpuQuota ≤ 0 ∨ ns.memoryQuota ≤ 0) → 0 < cpu → 0 < memory →
          (ns.allocateResources cpu memory).1 = false := by
  intro s name cpuQuota memoryQuota
  constructor
  · intro h
    unfold createNamespace
    rw [h]
  · intro ns cpu memory hc hm hq hcpu hmem
    have hnot : ¬(ns.cpuAllocated + cpu ≤ ns.cpuQuota ∧
        ns.memoryAllocated + memory ≤ ns.memoryQuota) := by
      rintro ⟨h1, h2⟩
      rcases hq with hq | hq <;> linarith
    unfold Namespace.allocateResources
    rw [if_neg hnot]

/-! Preservation lemmas: placement only moves pods around; it never changes a
node's identity fields, a deployment's non-pod fields, or the namespace table. -/

theorem updateNode_map_idFields (nodes : List WorkerNode) (nid : Nat)
    (f : WorkerNode → WorkerNode) (hf : ∀ n, nodeIdFields (f n) = nodeIdFields n) :
    (updateNode nodes nid f).map nodeIdFields = nodes.map nodeIdFields := by
  unfold updateNode
  rw [List.map_map]
  apply List.map_congr_left
  intro n _
  by_cases h : n.nid = nid <;> simp [h, hf]

theorem nodeIdFields_allocate_addPod (n : WorkerNode) (cpu mem : ℚ) (pod : Pod) :
    nodeIdFields (((n.allocateResources cpu mem).2).addPod pod) = nodeIdFields n := rfl

theorem nodeIdFields_deallocate_removePod (n : WorkerNode) (cpu mem : ℚ) (pod : Pod) :
    nodeIdFields ((n.deallocateResources cpu mem).removePod pod) = nodeIdFields n := rfl

theorem placePodsLoop_map_idFields (order : List Nat) :
    ∀ (pods : List Pod) (nodes : List WorkerNode),
      (placePodsLoop order pods nodes).2.map nodeIdFields = nodes.map nodeIdFields := by
  intro pods
  induction pods with
  | nil => intro nodes; rfl
  | cons p t ih =>
    intro nodes
    unfold placePodsLoop
    cases hst : p.status <;> cases order <;>
      simp [ih, updateNode_map_idFields, nodeIdFields_allocate_addPod]

theorem allocateDeploymentPods_namespaces (s : SimState) (i : Nat) :
    (allocateDeploymentPods s i).namespaces = s.namespaces := by
  unfold allocateDeploymentPods
  cases h : s.deployments[i]? <;> rfl

theorem allocateDeploymentPods_map_idFields (s : SimState) (i : Nat) :
    (allocateDeploymentPods s i).workerNodes.map nodeIdFields =
      s.workerNodes.map nodeIdFields := by
  unfold allocateDeploymentPods
  cases h : s.deployments[i]?
  · rfl
  · exact placePodsLoop_map_idFields _ _ _

theorem allocateDeploymentPods_map_depFields (s : SimState) (i : Nat) :
    (allocateDeploymentPods s i).deployments.map depFields =
      s.deployments.map depFields := by
  unfold allocateDeploymentPods
  cases h : s.deployments[i]? with
  | none => rfl
  | some dep =>
    simp only
    rw [List.map_set]
    apply set_getElem?_self
    rw [List.getElem?_map, h]
    rfl

theorem allocateDeploymentPods_counters (s : SimState) (i : Nat) :
    (allocateDeploymentPods s i).nodeCounter = s.nodeCounter
    ∧ (allocateDeploymentPods s i).simulatedWorkloadFactor = s.simulatedWorkloadFactor := by
  unfold allocateDeploymentPods
  cases h : s.deployments[i]? <;> exact ⟨rfl, rfl⟩

theorem replaceFirstNs_map_name (nm : String) (f : Namespace → Namespace)
    (hf : ∀ y, y.name = nm → (f y).name = y.name) :
    ∀ l : List Namespace, (replaceFirstNs l nm f).map Namespace.name = l.map Namespace.name := by
  intro l
  induction l with
  | nil => rfl
  | cons ns rest ih =>
    unfold replaceFirstNs
    by_cases h : ns.name = nm
    · simp [h, hf ns h]
    · simp [h, ih]

theorem createNamespace_other_fields (s : SimState) (n : String) (c m : ℚ) :
    (createNamespace s n c m).2.deployments = s.deployments
    ∧ (createNamespace s n c m).2.workerNodes = s.workerNodes
    ∧ (createNamespace s n c m).2.nodeCounter = s.nodeCounter := by
  unfold createNamespace
  cases h : lookupNamespace s n <;> exact ⟨rfl, rfl, rfl⟩

theorem createNamespace_namespaces_names (s : SimState) (n : String) (c m : ℚ) :
    (createNamespace s n c m).2.namespaces.map Namespace.name = s.namespaces.map Namespace.name
    ∨ (createNamespace s n c m).2.namespaces.map Namespace.name =
        s.namespaces.map Namespace.name ++ [n] := by
  unfold createNamespace
  cases h : lookupNamespace s n
  · right; simp
  · left; rfl

theorem lookupNamespace_name (s : SimState) (nm : String) (ns : Namespace)
    (h : lookupNamespace s nm = some ns) : ns.name = nm := by
  have := List.find?_some h
  exact of_decide_eq_true this

theorem addDeployment_namespaces_names (s : SimState) (name nsName : String)
    (rc : Nat) (c m : ℚ) :
    ((addDeployment s name nsName rc c m).2.namespaces.map Namespace.name) =
      s.namespaces.map Namespace.name := by
  unfold addDeployment
  cases hlook : lookupNamespace s nsName with
  | none => rfl
  | some ns =>
    simp only
    split
    · rw [allocateDeploymentPods_namespaces]
      apply replaceFirstNs_map_name
      intro y hy
      have h1 : ns.name = nsName := lookupNamespace_name s nsName ns hlook
      unfold Namespace.allocateResources
      split <;> simp_all
    · rfl

theorem addDeployment_workerNodes_idFields (s : SimState) (name nsName : String)
    (rc : Nat) (c m : ℚ) :
    ((addDeployment s name nsName rc c m).2.workerNodes.map nodeIdFields) =
      s.workerNodes.map nodeIdFields := by
  unfold addDeployment
  cases hlook : lookupNamespace s nsName with
  | none => rfl
  | some ns =>
    simp only
    split
    · rw [allocateDeploymentPods_map_idFields]
    · rfl

theorem map_name_eq_of_map_depFields {l₁ l₂ : List Deployment}
    (h : l₁.map depFields = l₂.map depFields) :
    l₁.map Deployment.name = l₂.map Deployment.name := by
  have h1 := congrArg (List.map (fun x : String × String × Nat × ℚ × ℚ => x.1)) h
  rw [List.map_map, List.map_map] at h1
  exact h1

theorem allocateDeploymentPods_map_depNames (s : SimState) (i : Nat) :
    (allocateDeploymentPods s i).deployments.map Deployment.name =
      s.deployments.map Deployment.name :=
  map_name_eq_of_map_depFields (allocateDeploymentPods_map_depFields s i)

theorem addDeployment_deployments_names (s : SimState) (name nsName : String)
    (rc : Nat) (c m : ℚ) :
    ((addDeployment s name nsName rc c m).2.deployments.map Deployment.name) =
      s.deployments.map Deployment.name
    ∨ ((addDeployment s name nsName rc c m).2.deployments.map Deployment.name) =
      s.deployments.map Deployment.name ++ [name] := by
  unfold addDeployment
  cases hlook : lookupNamespace s nsName with
  | none => left; rfl
  | some ns =>
    simp only
    split
    · right
      rw [allocateDeploymentPods_map_depNames]
      simp [Deployment.createPods]
    · left; rfl

theorem foldl_invariant {α β : Type} (g : β → α → β) (P : β → Prop)
    (h : ∀ b a, P b → P (g b a)) : ∀ (l : List α) (b : β), P b → P (l.foldl g b) := by
  intro l
  induction l with
  | nil => intro b hb; exact hb
  | cons x t ih => intro b hb; exact ih (g b x) (h b x hb)

/-- Invariant of the workload synthesis loops: only synthesized names appear and
the node pool identities are those of `N`. -/
def SynthOnly (N : List (Nat × String × ℚ × ℚ)) (s : SimState) : Prop :=
  (∀ nm ∈ s.namespaces.map Namespace.name, ∃ i, nm = simNsName i)
  ∧ (∀ nm ∈ s.deployments.map Deployment.name, ∃ i j, nm = simDepName i j)
  ∧ s.workerNodes.map nodeIdFields = N

theorem synthesizeDeployments_synthOnly (N : List (Nat × String × ℚ × ℚ))
    (rng : Nat → Nat) (i numDeploymentsPerNs : Nat) (cpuPerDeployment memPerDeployment : ℚ)
    (s : SimState) (hs : SynthOnly N s) :
    SynthOnly N (synthesizeDeployments rng i numDeploymentsPerNs
      cpuPerDeployment memPerDeployment s) := by
  unfold synthesizeDeployments
  apply foldl_invariant _ (SynthOnly N) _ _ _ hs
  intro b j hb
  refine ⟨?_, ?_, ?_⟩
  · intro nm hnm
    rw [addDeployment_namespaces_names] at hnm
    exact hb.1 nm hnm
  · intro nm hnm
    rcases addDeployment_deployments_names b (simDepName i j) (simNsName i)
        (rng (i * numDeploymentsPerNs + j) % 3 + 1)
        (max (0.01 : ℚ) (cpuPerDeployment / ((rng (i * numDeploymentsPerNs + j) % 3 + 1 : Nat) : ℚ)))
        (max (0.01 : ℚ) (memPerDeployment / ((rng (i * numDeploymentsPerNs + j) % 3 + 1 : Nat) : ℚ)))
      with hsame | hadd
    · rw [hsame] at hnm
      exact hb.2.1 nm hnm
    · rw [hadd] at hnm
      rcases List.mem_append.mp hnm with hnm | hnm
      · exact hb.2.1 nm hnm
      · rcases List.mem_singleton.mp hnm with rfl
        exact ⟨i, j, rfl⟩
  · rw [addDeployment_workerNodes_idFields]
    exact hb.2.2

/-- C6 counterexample: a successful `setSimulatedWorkloadFactor(0.1)` call leaves
a non-empty namespace table (the synthesized `sim-ns-0`), so the post-state does
not have "all namespaces cleared". -/
theorem claim_C6_counterexample :
    (setSimulatedWorkloadFactor initialSimulator (1/10) (fun _ => 0)).1 = true
    ∧ (setSimulatedWorkloadFactor initialSimulator (1/10)
        (fun _ => 0)).2.namespaces.map Namespace.name = ["sim-ns-0"]
    ∧ (setSimulatedWorkloadFactor initialSimulator (1/10) (fun _ => 0)).2.namespaces ≠ [] :=
  ⟨by decide, by decide, by decide⟩

/-- C6 (amended): `setSimulatedWorkloadFactor(factor)` returns false, leaving all
state unchanged, iff `factor < 0` or `factor > 1`.  On success it resets every
node's allocated counters and pod set and clears all pre-existing namespaces and
deployments before synthesizing the new simulated workload: afterwards only
synthesized namespaces (`sim-ns-i`) and deployments (`sim-dep-i-j`) exist and
the pool keeps its identity (name/capacity/size).  In particular with factor 0
no namespaces, no deployments, all node counters 0 and pod sets empty, and the
pool size unchanged. -/
theorem claim_C6 :
    ∀ (s : SimState) (factor : ℚ) (rng : Nat → Nat),
      ((setSimulatedWorkloadFactor s factor rng).1 = false ↔ (factor < 0 ∨ 1 < factor))
      ∧ ((factor < 0 ∨ 1 < factor) → (setSimulatedWorkloadFactor s factor rng).2 = s)
      ∧ ((setSimulatedWorkloadFactor s 0 rng).2.namespaces = []
         ∧ (setSimulatedWorkloadFactor s 0 rng).2.deployments = []
         ∧ (∀ n ∈ (setSimulatedWorkloadFactor s 0 rng).2.workerNodes,
              n.cpuAllocated = 0 ∧ n.memoryAllocated = 0 ∧ n.pods = [])
         ∧ (setSimulatedWorkloadFactor s 0 rng).2.workerNodes.length =
             s.workerNodes.length)
      ∧ (¬(factor < 0 ∨ 1 < factor) →
          SynthOnly (s.workerNodes.map nodeIdFields)
            (setSimulatedWorkloadFactor s factor rng).2) := by
  intro s factor rng
  have hreset : (s.workerNodes.map resetNodeAllocation).map nodeIdFields =
      s.workerNodes.map nodeIdFields := by
    rw [List.map_map]
    rfl
  refine ⟨?_, ?_, ?_, ?_⟩
  · unfold setSimulatedWorkloadFactor
    split
    next h => simpa using h
    next h => by_cases h2 : 0 < factor <;> simp [h2, h]
  · intro h
    unfold setSimulatedWorkloadFactor
    rw [if_pos h]
  · have h0 : ¬((0 : ℚ) < 0 ∨ 1 < (0 : ℚ)) := by
      rintro (h | h) <;> exact absurd h (by norm_num)
    have h1 : ¬(0 < (0 : ℚ)) := by norm_num
    unfold setSimulatedWorkloadFactor
    rw [if_neg h0, if_neg h1]
    refine ⟨rfl, rfl, ?_, by simp⟩
    intro n hn
    rcases List.mem_map.mp hn with ⟨m, _, rfl⟩
    exact ⟨rfl, rfl, rfl⟩
  · intro h
    unfold setSimulatedWorkloadFactor
    rw [if_neg h]
    by_cases h2 : 0 < factor
    · rw [if_pos h2]
      simp only
      apply foldl_invariant _ (SynthOnly (s.workerNodes.map nodeIdFields))
      · intro b i hb
        apply synthesizeDeployments_synthOnly
        refine ⟨?_, ?_, ?_⟩
        · intro nm hnm
          rcases createNamespace_namespaces_names b (simNsName i)
              ((((s.workerNodes.map resetNodeAllocation).map
                  WorkerNode.allocatableCpu).sum /
                ((max 1 (min 10 (Int.toNat ⌈factor * 10⌉)) : Nat) : ℚ)) * (1.2 : ℚ))
              ((((s.workerNodes.map resetNodeAllocation).map
                  WorkerNode.allocatableMemory).sum /
                ((max 1 (min 10 (Int.toNat ⌈factor * 10⌉)) : Nat) : ℚ)) * (1.2 : ℚ))
            with hsame | hadd
          · rw [hsame] at hnm
            exact hb.1 nm hnm
          · rw [hadd] at hnm
            rcases List.mem_append.mp hnm with hnm | hnm
            · exact hb.1 nm hnm
            · rcases List.mem_singleton.mp hnm with rfl
              exact ⟨i, rfl⟩
        · intro nm hnm
          rw [(createNamespace_other_fields b (simNsName i) _ _).1] at hnm
          exact hb.2.1 nm hnm
        · rw [(createNamespace_other_fields b (simNsName i) _ _).2.1]
          exact hb.2.2
      · exact ⟨by simp, by simp, hreset⟩
    · rw [if_neg h2]
      exact ⟨by simp, by simp, hreset⟩

/-- C6 witness: an out-of-range factor (2) is rejected and changes nothing. -/
theorem claim_C6_witness :
    (setSimulatedWorkloadFactor demoDeployed 2 (fun _ => 0)).1 = false
    ∧ (setSimulatedWorkloadFactor demoDeployed 2 (fun _ => 0)).2 = demoDeployed :=
  ⟨((claim_C6 demoDeployed 2 (fun _ => 0)).1).mpr (Or.inr (by decide)),
   (claim_C6 demoDeployed 2 (fun _ => 0)).2.1 (Or.inr (by decide))⟩

theorem reallocateAllPods_idFields_counter (s : SimState) :
    (reallocateAllPods s).workerNodes.map nodeIdFields = s.workerNodes.map nodeIdFields
    ∧ (reallocateAllPods s).nodeCounter = s.nodeCounter := by
  unfold reallocateAllPods
  have hinv := foldl_invariant allocateDeploymentPods
    (fun s' => s'.workerNodes.map nodeIdFields = s.workerNodes.map nodeIdFields
      ∧ s'.nodeCounter = s.nodeCounter)
    (fun b i hb => ⟨(allocateDeploymentPods_map_idFields b i).trans hb.1,
      ((allocateDeploymentPods_counters b i).1).trans hb.2⟩)
  apply hinv
  constructor
  · rw [List.map_map]
    rfl
  · rfl

theorem addWorkerNodesLoop_spec :
    ∀ (k : Nat) (s : SimState),
      (addWorkerNodesLoop s k).workerNodes.map nodeIdFields =
        s.workerNodes.map nodeIdFields ++ (List.range k).map (fun j =>
          (s.nodeCounter + j + 1, "worker-node-" ++ toString (s.nodeCounter + j + 1),
            (128 : ℚ), (1500 : ℚ)))
      ∧ (addWorkerNodesLoop s k).nodeCounter = s.nodeCounter + k
      ∧ (addWorkerNodesLoop s k).namespaces = s.namespaces
      ∧ (addWorkerNodesLoop s k).deployments = s.deployments := by
  intro k
  induction k with
  | zero => intro s; simp [addWorkerNodesLoop]
  | succ k ih =>
    intro s
    unfold addWorkerNodesLoop
    rcases ih (addWorkerNode s none 128 1500).2 with ⟨h1, h2, h3, h4⟩
    have hstepc : (addWorkerNode s none 128 1500).2.nodeCounter = s.nodeCounter + 1 := rfl
    have hstepn : (addWorkerNode s none 128 1500).2.workerNodes.map nodeIdFields =
        s.workerNodes.map nodeIdFields ++
          [(s.nodeCounter + 1, "worker-node-" ++ toString (s.nodeCounter + 1),
            (128 : ℚ), (1500 : ℚ))] := by
      unfold addWorkerNode
      simp [nodeIdFields]
    refine ⟨?_, ?_, h3, h4⟩
    · rw [h1, hstepn, hstepc, List.append_assoc, List.range_succ_eq_map]
      congr 1
      simp only [List.map_cons, List.map_map, List.singleton_append]
      congr 1
      apply List.map_congr_left
      intro j _
      simp only [Function.comp_apply, Nat.succ_eq_add_one]
      have h : s.nodeCounter + 1 + j + 1 = s.nodeCounter + (j + 1) + 1 := by omega
      rw [h]
    · rw [h2, hstepc]
      omega

theorem length_eq_of_map_idFields {l₁ l₂ : List WorkerNode}
    (h : l₁.map nodeIdFields = l₂.map nodeIdFields) : l₁.length = l₂.length := by
  have := congrArg List.length h
  simpa using this

/-- C7: `setTotalWorkerNodes(target)` always returns true and leaves exactly
`target` nodes: shrinking keeps the first `target` nodes (identities preserved),
growing appends nodes named `worker-node-{counter}` with a strictly increasing,
never-reused counter, an equal target changes nothing, and any shrink or grow is
followed by a full reallocation of all pods. -/
theorem claim_C7 :
    ∀ (s : SimState) (target : Nat),
      (setTotalWorkerNodes s target).1 = true
      ∧ (setTotalWorkerNodes s target).2.workerNodes.length = target
      ∧ (target = s.workerNodes.length → (setTotalWorkerNodes s target).2 = s)
      ∧ (target < s.workerNodes.length →
          (setTotalWorkerNodes s target).2 =
            reallocateAllPods { s with workerNodes := s.workerNodes.take target }
          ∧ (setTotalWorkerNodes s target).2.workerNodes.map nodeIdFields =
              (s.workerNodes.take target).map nodeIdFields
          ∧ (setTotalWorkerNodes s target).2.nodeCounter = s.nodeCounter)
      ∧ (s.workerNodes.length < target →
          (setTotalWorkerNodes s target).2 =
            reallocateAllPods (addWorkerNodesLoop s (target - s.workerNodes.length))
          ∧ (setTotalWorkerNodes s target).2.workerNodes.map nodeIdFields =
              s.workerNodes.map nodeIdFields ++
                (List.range (target - s.workerNodes.length)).map (fun j =>
                  (s.nodeCounter + j + 1,
                    "worker-node-" ++ toString (s.nodeCounter + j + 1),
                    (128 : ℚ), (1500 : ℚ)))
          ∧ (setTotalWorkerNodes s target).2.nodeCounter =
              s.nodeCounter + (target - s.workerNodes.length))
      ∧ s.nodeCounter ≤ (setTotalWorkerNodes s target).2.nodeCounter := by
  intro s target
  by_cases hlt : target < s.workerNodes.length
  · have hres : setTotalWorkerNodes s target =
        (true, reallocateAllPods { s with workerNodes := s.workerNodes.take target }) := by
      unfold setTotalWorkerNodes
      rw [if_pos hlt]
    rcases reallocateAllPods_idFields_counter
        { s with workerNodes := s.workerNodes.take target } with ⟨hid, hcnt⟩
    refine ⟨by rw [hres], ?_, ?_, ?_, ?_, ?_⟩
    · rw [hres]
      have := length_eq_of_map_idFields hid
      simp only at this
      rw [this]
      simp [List.length_take]
      omega
    · intro h; omega
    · intro _
      exact ⟨by rw [hres], by rw [hres]; exact hid, by rw [hres]; exact hcnt⟩
    · intro h; omega
    · rw [hres]
      exact le_of_eq hcnt.symm
  · by_cases hgt : s.workerNodes.length < target
    · have hres : setTotalWorkerNodes s target =
          (true, reallocateAllPods (addWorkerNodesLoop s (target - s.workerNodes.length))) := by
        unfold setTotalWorkerNodes
        rw [if_neg hlt, if_pos hgt]
      rcases reallocateAllPods_idFields_counter
          (addWorkerNodesLoop s (target - s.workerNodes.length)) with ⟨hid, hcnt⟩
      rcases addWorkerNodesLoop_spec (target - s.workerNodes.length) s with ⟨h1, h2, _, _⟩
      refine ⟨by rw [hres], ?_, ?_, ?_, ?_, ?_⟩
      · rw [hres]
        have hlen := length_eq_of_map_idFields hid
        simp only at hlen
        rw [hlen]
        have hlen2 := congrArg List.length h1
        simp only [List.length_map, List.length_append, List.length_range] at hlen2
        omega
      · intro h; omega
      · intro h; omega
      · intro _
        refine ⟨by rw [hres], ?_, ?_⟩
        · rw [hres, hid, h1]
        · rw [hres, hcnt, h2]
      · rw [hres, hcnt, h2]
        omega
    · have heq : target = s.workerNodes.length := by omega
      have hres : setTotalWorkerNodes s target = (true, s) := by
        unfold setTotalWorkerNodes
        rw [if_neg hlt, if_neg hgt]
      refine ⟨by rw [hres], by rw [hres, heq], fun _ => by rw [hres], ?_, ?_, by rw [hres]⟩
      · intro h; omega
      · intro h; omega

/-- C7 witness: shrinking the demo cluster to a single node succeeds and leaves
exactly one node. -/
theorem claim_C7_witness :
    (setTotalWorkerNodes demoDeployed 1).1 = true
    ∧ (setTotalWorkerNodes demoDeployed 1).2.workerNodes.length = 1 :=
  ⟨(claim_C7 demoDeployed 1).1, (claim_C7 demoDeployed 1).2.1⟩

theorem replaceFirstNs_comp (nm : String) (f g : Namespace → Namespace)
    (hf : ∀ x, x.name = nm → (f x).name = nm) :
    ∀ l : List Namespace,
      replaceFirstNs (replaceFirstNs l nm f) nm g =
        replaceFirstNs l nm (fun x => g (f x)) := by
  intro l
  induction l with
  | nil => rfl
  | cons a rest ih =>
    by_cases h : a.name = nm
    · show replaceFirstNs (if a.name = nm then f a :: rest else _) nm g = _
      rw [if_pos h]
      show (if (f a).name = nm then g (f a) :: rest else _) = _
      rw [if_pos (hf a h)]
      show _ = if a.name = nm then g (f a) :: rest else _
      rw [if_pos h]
    · show replaceFirstNs (if a.name = nm then _ else a :: replaceFirstNs rest nm f) nm g = _
      rw [if_neg h]
      show (if a.name = nm then _ else a :: replaceFirstNs (replaceFirstNs rest nm f) nm g) = _
      rw [if_neg h, ih]
      show _ = if a.name = nm then _ else a :: replaceFirstNs rest nm (fun x => g (f x))
      rw [if_neg h]

theorem replaceFirstNs_of_find? (nm : String) (a : Namespace) :
    ∀ l : List Namespace, l.find? (fun x => x.name = nm) = some a →
      replaceFirstNs l nm (fun _ => a) = l := by
  intro l
  induction l with
  | nil => intro h; simp at h
  | cons b rest ih =>
    intro h
    by_cases hb : b.name = nm
    · have hfind : (b :: rest).find? (fun x => x.name = nm) = some b :=
        List.find?_cons_of_pos _ (by simpa using hb)
      rw [h] at hfind
      have hba : b = a := Option.some.inj hfind.symm
      show (if b.name = nm then a :: rest else _) = b :: rest
      rw [if_pos hb]
      rw [← hba]
    · have h' : rest.find? (fun x => x.name = nm) = some a := by
        rwa [List.find?_cons_of_neg _ (by simpa using hb)] at h
      show (if b.name = nm then _ else b :: replaceFirstNs rest nm (fun _ => a)) = b :: rest
      rw [if_neg hb, ih h']

theorem find?_replaceFirstDep (nm : String) (f : Deployment → Deployment) (d : Deployment) :
    ∀ l : List Deployment, l.find? (fun x => x.name = nm) = some d → (f d).name = nm →
      (replaceFirstDep l nm f).find? (fun x => x.name = nm) = some (f d) := by
  intro l
  induction l with
  | nil => intro h _; simp at h
  | cons b rest ih =>
    intro h hf
    by_cases hb : b.name = nm
    · have hfind : (b :: rest).find? (fun x => x.name = nm) = some b :=
        List.find?_cons_of_pos _ (by simpa using hb)
      rw [h] at hfind
      have hbd : b = d := Option.some.inj hfind.symm
      show (if b.name = nm then f b :: rest else _).find? (fun x => x.name = nm) = _
      rw [if_pos hb, hbd]
      exact List.find?_cons_of_pos _ (by simpa using hf)
    · have h' : rest.find? (fun x => x.name = nm) = some d := by
        rwa [List.find?_cons_of_neg _ (by simpa using hb)] at h
      show (if b.name = nm then _ else b :: replaceFirstDep rest nm f).find?
          (fun x => x.name = nm) = _
      rw [if_neg hb]
      rw [List.find?_cons_of_neg _ (by simpa using hb)]
      exact ih h' hf

theorem mkPods_pending (depName : String) (rc : Nat) (c m : ℚ) :
    ∀ p ∈ mkPods depName rc c m, p.status = PodStatus.Pending ∧ p.node = none := by
  intro p hp
  rcases List.mem_map.mp hp with ⟨i, _, rfl⟩
  exact ⟨rfl, rfl⟩

theorem map_nid_eq_of_map_idFields {l₁ l₂ : List WorkerNode}
    (h : l₁.map nodeIdFields = l₂.map nodeIdFields) :
    l₁.map WorkerNode.nid = l₂.map WorkerNode.nid := by
  have h1 := congrArg (List.map (fun x : Nat × String × ℚ × ℚ => x.1)) h
  rw [List.map_map, List.map_map] at h1
  exact h1

/-- Binding one pending pod to the node(s) with identity `nid` preserves the
accounting invariant, with the pod now bound in the population. -/
theorem bind_step_nodeAccounting (nodes : List WorkerNode) (X Y : List Pod) (p : Pod)
    (nid : Nat) (hprev : NodeAccounting nodes (X ++ p :: Y)) (hpnode : p.node = none) :
    NodeAccounting
      (updateNode nodes nid (fun n =>
        ((n.allocateResources p.cpuRequest p.memoryRequest).2).addPod (bindPod p nid)))
      (X ++ bindPod p nid :: Y) := by
  have hbnew : ∀ k : Nat, k = nid →
      boundTo (X ++ bindPod p nid :: Y) k = boundTo X k ++ bindPod p nid :: boundTo Y k := by
    intro k hk
    subst hk
    rw [boundTo_append, boundTo_cons_of_bound]
    rfl
  have hbnew' : ∀ k : Nat, ¬(k = nid) →
      boundTo (X ++ bindPod p nid :: Y) k = boundTo X k ++ boundTo Y k := by
    intro k hk
    rw [boundTo_append, boundTo_cons_of_not_bound]
    intro hcontra
    exact hk (Option.some.inj hcontra).symm
  have hbold : ∀ k : Nat, boundTo (X ++ p :: Y) k = boundTo X k ++ boundTo Y k := by
    intro k
    rw [boundTo_append, boundTo_cons_of_not_bound]
    rw [hpnode]
    simp
  intro n hn
  rcases List.mem_map.mp hn with ⟨n₀, hn₀, rfl⟩
  rcases hprev n₀ hn₀ with ⟨h1, h2, h3⟩
  rw [hbold] at h1
  by_cases hid : n₀.nid = nid
  · rw [if_pos hid]
    dsimp only
    have hupd : ((n₀.allocateResources p.cpuRequest p.memoryRequest).2).addPod
        (bindPod p nid) =
        { n₀ with cpuAllocated := n₀.cpuAllocated + p.cpuRequest,
                  memoryAllocated := n₀.memoryAllocated + p.memoryRequest,
                  pods := n₀.pods ++ [bindPod p nid] } := rfl
    rw [hupd]
    refine ⟨?_, ?_, ?_⟩
    · show (n₀.pods ++ [bindPod p nid]).Perm (boundTo (X ++ bindPod p nid :: Y) n₀.nid)
      rw [hbnew n₀.nid hid]
      exact ((List.perm_append_singleton _ _).trans
        (List.Perm.cons _ h1)).trans List.perm_middle.symm
    · show n₀.cpuAllocated + p.cpuRequest = cpuSum (n₀.pods ++ [bindPod p nid])
      rw [cpuSum_append, h2]
      have : cpuSum [bindPod p nid] = p.cpuRequest := by
        unfold cpuSum bindPod
        simp
      rw [this]
    · show n₀.memoryAllocated + p.memoryRequest = memSum (n₀.pods ++ [bindPod p nid])
      rw [memSum_append, h3]
      have : memSum [bindPod p nid] = p.memoryRequest := by
        unfold memSum bindPod
        simp
      rw [this]
  · rw [if_neg hid]
    refine ⟨?_, h2, h3⟩
    rw [hbnew' n₀.nid hid]
    exact h1

/-- Placement over a nonempty candidate list preserves the accounting
invariant, with the deployment's pods replaced by their placed forms. -/
theorem placePodsLoop_nodeAccounting (nid : Nat) (tl : List Nat) :
    ∀ (pods X Y : List Pod) (nodes : List WorkerNode),
      NodeAccounting nodes (X ++ pods ++ Y) →
      (∀ p ∈ pods, p.status = PodStatus.Pending → p.node = none) →
      NodeAccounting (placePodsLoop (nid :: tl) pods nodes).2
        (X ++ (placePodsLoop (nid :: tl) pods nodes).1 ++ Y) := by
  intro pods
  induction pods with
  | nil =>
    intro X Y nodes h _
    exact h
  | cons p rest ih =>
    intro X Y nodes hacc hpend
    unfold placePodsLoop
    cases hst : p.status
    · dsimp only
      have hacc1 : NodeAccounting nodes (X ++ p :: (rest ++ Y)) := by
        have : X ++ (p :: rest) ++ Y = X ++ p :: (rest ++ Y) := by simp
        rwa [this] at hacc
      have hstep := bind_step_nodeAccounting nodes X (rest ++ Y) p nid hacc1
        (hpend p (List.mem_cons_self p rest) hst)
      have hstep' : NodeAccounting
          (updateNode nodes nid (fun n =>
            ((n.allocateResources p.cpuRequest p.memoryRequest).2).addPod (bindPod p nid)))
          ((X ++ [bindPod p nid]) ++ rest ++ Y) := by
        have : (X ++ [bindPod p nid]) ++ rest ++ Y = X ++ bindPod p nid :: (rest ++ Y) := by
          simp
        rwa [this]
      have hres := ih (X ++ [bindPod p nid]) Y _ hstep'
        (fun q hq hqs => hpend q (List.mem_cons_of_mem p hq) hqs)
      have hshape : (X ++ [bindPod p nid]) ++
          (placePodsLoop (nid :: tl) rest
            (updateNode nodes nid (fun n =>
              ((n.allocateResources p.cpuRequest p.memoryRequest).2).addPod
                (bindPod p nid)))).1 ++ Y =
          X ++ (bindPod p nid ::
            (placePodsLoop (nid :: tl) rest
              (updateNode nodes nid (fun n =>
                ((n.allocateResources p.cpuRequest p.memoryRequest).2).addPod
                  (bindPod p nid)))).1) ++ Y := by
        simp
      rw [hshape] at hres
      exact hres
    · dsimp only
      have hacc1 : NodeAccounting nodes ((X ++ [p]) ++ rest ++ Y) := by
        have : (X ++ [p]) ++ rest ++ Y = X ++ (p :: rest) ++ Y := by simp
        rwa [this]
      have hres := ih (X ++ [p]) Y nodes hacc1
        (fun q hq hqs => hpend q (List.mem_cons_of_mem p hq) hqs)
      have hshape : (X ++ [p]) ++ (placePodsLoop (nid :: tl) rest nodes).1 ++ Y =
          X ++ (p :: (placePodsLoop (nid :: tl) rest nodes).1) ++ Y := by
        simp
      rw [hshape] at hres
      exact hres

theorem erase_middle_perm {α : Type} [DecidableEq α] (l₁ l₂ : List α) (a : α) :
    ((l₁ ++ a :: l₂).erase a).Perm (l₁ ++ l₂) := by
  have h := List.Perm.erase a (@List.perm_middle _ a l₁ l₂)
  rwa [List.erase_cons_head] at h

theorem cpuSum_cons (p : Pod) (l : List Pod) : cpuSum (p :: l) = p.cpuRequest + cpuSum l := by
  unfold cpuSum
  simp

theorem memSum_cons (p : Pod) (l : List Pod) :
    memSum (p :: l) = p.memoryRequest + memSum l := by
  unfold memSum
  simp

/-- Unbinding one bound pod from its node preserves the accounting invariant,
with the pod removed from the population. -/
theorem unbind_step_nodeAccounting (nodes : List WorkerNode) (X Y : List Pod) (p : Pod)
    (hacc : NodeAccounting nodes (X ++ p :: Y))
    (hpos : ∀ q ∈ X ++ p :: Y, 0 < q.cpuRequest ∧ 0 < q.memoryRequest) :
    NodeAccounting (unbindPodFromNode nodes p) (X ++ Y) := by
  unfold unbindPodFromNode
  cases hnode : p.node with
  | none =>
    intro n hn
    rcases hacc n hn with ⟨h1, h2, h3⟩
    refine ⟨?_, h2, h3⟩
    have hb : boundTo (X ++ p :: Y) n.nid = boundTo (X ++ Y) n.nid := by
      rw [boundTo_append, boundTo_cons_of_not_bound _ _ _ (by rw [hnode]; simp),
        boundTo_append]
    rwa [hb] at h1
  | some k =>
    intro n hn
    rcases List.mem_map.mp hn with ⟨n₀, hn₀, rfl⟩
    rcases hacc n₀ hn₀ with ⟨h1, h2, h3⟩
    by_cases hid : n₀.nid = k
    · rw [if_pos hid]
      dsimp only
      have hpk : p.node = some n₀.nid := by rw [hnode, hid]
      have hbold : boundTo (X ++ p :: Y) n₀.nid =
          boundTo X n₀.nid ++ p :: boundTo Y n₀.nid := by
        rw [boundTo_append, boundTo_cons_of_bound _ _ _ hpk]
      rw [hbold] at h1
      have hposXY : ∀ q ∈ boundTo X n₀.nid ++ boundTo Y n₀.nid,
          0 < q.cpuRequest ∧ 0 < q.memoryRequest := by
        intro q hq
        rcases List.mem_append.mp hq with hq | hq
        · exact hpos q (List.mem_append.mpr (Or.inl ((boundTo_sublist X n₀.nid).mem hq)))
        · exact hpos q (List.mem_append.mpr (Or.inr
            (List.mem_cons_of_mem p ((boundTo_sublist Y n₀.nid).mem hq))))
      have hcsum : n₀.cpuAllocated - p.cpuRequest =
          cpuSum (boundTo X n₀.nid ++ boundTo Y n₀.nid) := by
        rw [h2, cpuSum_perm h1, cpuSum_append, cpuSum_cons, cpuSum_append]
        ring
      have hmsum : n₀.memoryAllocated - p.memoryRequest =
          memSum (boundTo X n₀.nid ++ boundTo Y n₀.nid) := by
        rw [h3, memSum_perm h1, memSum_append, memSum_cons, memSum_append]
        ring
      have hcnn : ¬(n₀.cpuAllocated - p.cpuRequest < 0) := by
        rw [hcsum]
        exact not_lt.mpr (cpuSum_nonneg (fun q hq => (hposXY q hq).1))
      have hmnn : ¬(n₀.memoryAllocated - p.memoryRequest < 0) := by
        rw [hmsum]
        exact not_lt.mpr (memSum_nonneg (fun q hq => (hposXY q hq).2))
      have hupd : (n₀.deallocateResources p.cpuRequest p.memoryRequest).removePod p =
          { n₀ with cpuAllocated := n₀.cpuAllocated - p.cpuRequest,
                    memoryAllocated := n₀.memoryAllocated - p.memoryRequest,
                    pods := n₀.pods.erase p } := by
        unfold WorkerNode.deallocateResources WorkerNode.removePod
        dsimp only
        rw [if_neg hcnn, if_neg hmnn]
      rw [hupd]
      have hperm : (n₀.pods.erase p).Perm (boundTo (X ++ Y) n₀.nid) := by
        rw [boundTo_append]
        exact (List.Perm.erase p h1).trans (erase_middle_perm _ _ _)
      refine ⟨hperm, ?_, ?_⟩
      · show n₀.cpuAllocated - p.cpuRequest = cpuSum (n₀.pods.erase p)
        rw [hcsum, cpuSum_perm ((List.Perm.erase p h1).trans (erase_middle_perm _ _ _))]
      · show n₀.memoryAllocated - p.memoryRequest = memSum (n₀.pods.erase p)
        rw [hmsum, memSum_perm ((List.Perm.erase p h1).trans (erase_middle_perm _ _ _))]
    · rw [if_neg hid]
      refine ⟨?_, h2, h3⟩
      have hb : boundTo (X ++ p :: Y) n₀.nid = boundTo (X ++ Y) n₀.nid := by
        rw [boundTo_append, boundTo_cons_of_not_bound _ _ _ ?_, boundTo_append]
        rw [hnode]
        intro hcontra
        exact hid (Option.some.inj hcontra).symm
      rwa [hb] at h1

theorem unbindPods_nodeAccounting :
    ∀ (L : List Pod) (nodes : List WorkerNode) (X Y : List Pod),
      NodeAccounting nodes (X ++ L ++ Y) →
      (∀ q ∈ X ++ L ++ Y, 0 < q.cpuRequest ∧ 0 < q.memoryRequest) →
      NodeAccounting (unbindPods nodes L) (X ++ Y) := by
  intro L
  induction L with
  | nil =>
    intro nodes X Y h _
    have heq : X ++ ([] : List Pod) ++ Y = X ++ Y := by simp
    rwa [heq] at h
  | cons p L' ih =>
    intro nodes X Y hacc hpos
    have heq : X ++ (p :: L') ++ Y = X ++ p :: (L' ++ Y) := by simp
    rw [heq] at hacc hpos
    have hstep := unbind_step_nodeAccounting nodes X (L' ++ Y) p hacc hpos
    show NodeAccounting (unbindPods (unbindPodFromNode nodes p) L') (X ++ Y)
    apply ih
    · have heq2 : X ++ L' ++ Y = X ++ (L' ++ Y) := by simp
      rwa [heq2]
    · intro q hq
      apply hpos
      have heq2 : X ++ L' ++ Y = X ++ (L' ++ Y) := by simp
      rw [heq2] at hq
      rcases List.mem_append.mp hq with hq | hq
      · exact List.mem_append.mpr (Or.inl hq)
      · exact List.mem_append.mpr (Or.inr (List.mem_cons_of_mem p hq))

theorem invA_allocateDeploymentPods (s : SimState) (i : Nat) (hinv : InvA s) :
    InvA (allocateDeploymentPods s i) := by
  unfold allocateDeploymentPods
  cases hi : s.deployments[i]? with
  | none => exact hinv
  | some dep =>
    dsimp only
    cases hs : sortNodesByCpu s.workerNodes with
    | nil =>
      simp only [List.map_nil, placePodsLoop_nil_order]
      have hdep : ({ dep with pods := dep.pods } : Deployment) = dep := rfl
      rw [hdep, set_getElem?_self s.deployments i dep hi]
      exact hinv
    | cons n0 restSorted =>
      simp only [List.map_cons]
      rcases hinv with ⟨hNA, hDW, hNW, hPU, hBP⟩
      have hdec := getElem?_eq_decomp s.deployments i dep hi
      have hps : allPods s =
          ((s.deployments.take i).map Deployment.pods).flatten ++ dep.pods ++
            ((s.deployments.drop (i + 1)).map Deployment.pods).flatten := by
        unfold allPods
        conv_lhs => rw [hdec]
        exact allPods_of_list _ _ _
      have hmemdep : ∀ p ∈ dep.pods, p ∈ allPods s := by
        intro p hp
        rw [hps]
        exact List.mem_append.mpr (Or.inl (List.mem_append.mpr (Or.inr hp)))
      have hn0 : n0 ∈ s.workerNodes := by
        have := (sortNodesByCpu_perm s.workerNodes).mem_iff.mp
          (by rw [hs]; exact List.mem_cons_self n0 restSorted)
        exact this
      have hpods' := placePodsLoop_cons_order_fst n0.nid (restSorted.map (fun n => n.nid))
        dep.pods s.workerNodes
      have hnodes' := placePodsLoop_map_idFields (n0.nid :: restSorted.map (fun n => n.nid))
        dep.pods s.workerNodes
      have hnewdec : (s.deployments.set i
          { dep with pods := (placePodsLoop (n0.nid :: restSorted.map (fun n => n.nid))
              dep.pods s.workerNodes).1 }) =
          s.deployments.take i ++
            { dep with pods := (placePodsLoop (n0.nid :: restSorted.map (fun n => n.nid))
                dep.pods s.workerNodes).1 } :: s.deployments.drop (i + 1) :=
        set_eq_decomp s.deployments i dep _ hi
      have hps' : allPods { s with
          workerNodes := (placePodsLoop (n0.nid :: restSorted.map (fun n => n.nid))
            dep.pods s.workerNodes).2,
          deployments := s.deployments.set i
            { dep with pods := (placePodsLoop (n0.nid :: restSorted.map (fun n => n.nid))
                dep.pods s.workerNodes).1 } } =
          ((s.deployments.take i).map Deployment.pods).flatten ++
            (placePodsLoop (n0.nid :: restSorted.map (fun n => n.nid))
              dep.pods s.workerNodes).1 ++
            ((s.deployments.drop (i + 1)).map Deployment.pods).flatten := by
        unfold allPods
        dsimp only
        rw [hnewdec]
        exact allPods_of_list _ _ _
      have hmem' : ∀ p, p ∈ allPods { s with
          workerNodes := (placePodsLoop (n0.nid :: restSorted.map (fun n => n.nid))
            dep.pods s.workerNodes).2,
          deployments := s.deployments.set i
            { dep with pods := (placePodsLoop (n0.nid :: restSorted.map (fun n => n.nid))
                dep.pods s.workerNodes).1 } } →
          p ∈ allPods s ∨
            p ∈ (placePodsLoop (n0.nid :: restSorted.map (fun n => n.nid))
              dep.pods s.workerNodes).1 := by
        intro p hp
        rw [hps'] at hp
        rcases List.mem_append.mp hp with hp | hp
        · rcases List.mem_append.mp hp with hp | hp
          · left
            rw [hps]
            exact List.mem_append.mpr (Or.inl (List.mem_append.mpr (Or.inl hp)))
          · right
            exact hp
        · left
          rw [hps]
          exact List.mem_append.mpr (Or.inr hp)
      have hplaced : ∀ p ∈ (placePodsLoop (n0.nid :: restSorted.map (fun n => n.nid))
          dep.pods s.workerNodes).1,
          ∃ q ∈ dep.pods, p = (if q.status = PodStatus.Pending then bindPod q n0.nid else q) := by
        intro p hp
        rw [hpods'] at hp
        rcases List.mem_map.mp hp with ⟨q, hq, rfl⟩
        exact ⟨q, hq, rfl⟩
      have hmapnid : (placePodsLoop (n0.nid :: restSorted.map (fun n => n.nid))
          dep.pods s.workerNodes).2.map WorkerNode.nid = s.workerNodes.map WorkerNode.nid :=
        map_nid_eq_of_map_idFields hnodes'
      refine ⟨?_, ?_, ?_, ?_, ?_⟩
      · -- NodeAccounting
        rw [hps']
        dsimp only
        apply placePodsLoop_nodeAccounting
        · rw [← hps]
          exact hNA
        · intro p hp hpend
          exact hPU p (hmemdep p hp) hpend
      · -- DepWf
        intro d hd
        dsimp only at hd
        rw [hnewdec] at hd
        rcases List.mem_append.mp hd with hd | hd
        · exact hDW d ((List.take_sublist i s.deployments).mem hd)
        · rcases List.mem_cons.mp hd with rfl | hd
          · have hdepmem : dep ∈ s.deployments := by
              rw [hdec]
              exact List.mem_append.mpr (Or.inr (List.mem_cons_self _ _))
            rcases hDW dep hdepmem with ⟨hc, hm, hreq⟩
            refine ⟨hc, hm, ?_⟩
            intro p hp
            dsimp only at hp
            rcases hplaced p hp with ⟨q, hq, rfl⟩
            rcases hreq q hq with ⟨hqc, hqm⟩
            by_cases hqs : q.status = PodStatus.Pending <;> simp [hqs, bindPod, hqc, hqm]
          · exact hDW d ((List.drop_sublist (i + 1) s.deployments).mem hd)
      · -- node ids bounded
        intro n hn
        dsimp only at hn
        have : n.nid ∈ (placePodsLoop (n0.nid :: restSorted.map (fun m => m.nid))
            dep.pods s.workerNodes).2.map WorkerNode.nid := List.mem_map_of_mem _ hn
        rw [hmapnid] at this
        rcases List.mem_map.mp this with ⟨m, hm, hmn⟩
        rw [← hmn]
        exact hNW m hm
      · -- pending pods unbound
        intro p hp hpend
        rcases hmem' p hp with hp | hp
        · exact hPU p hp hpend
        · rcases hplaced p hp with ⟨q, hq, rfl⟩
          by_cases hqs : q.status = PodStatus.Pending
          · rw [if_pos hqs] at hpend ⊢
            exact absurd hpend (by simp [bindPod])
          · rw [if_neg hqs] at hpend ⊢
            exact hPU q (hmemdep q hq) hpend
      · -- bound node ids in pool
        intro p hp nid hnid
        dsimp only
        rw [hmapnid]
        rcases hmem' p hp with hp | hp
        · exact hBP p hp nid hnid
        · rcases hplaced p hp with ⟨q, hq, rfl⟩
          by_cases hqs : q.status = PodStatus.Pending
          · rw [if_pos hqs] at hnid
            have : some n0.nid = some nid := hnid
            rw [← Option.some.inj this]
            exact List.mem_map_of_mem _ hn0
          · rw [if_neg hqs] at hnid
            exact hBP q (hmemdep q hq) nid hnid

theorem find?_decomp {α : Type} (p : α → Bool) :
    ∀ (l : List α) (a : α), l.find? p = some a →
      ∃ l₁ l₂, l = l₁ ++ a :: l₂ ∧ ∀ x ∈ l₁, p x = false := by
  intro l
  induction l with
  | nil => intro a h; simp at h
  | cons b t ih =>
    intro a h
    by_cases hb : p b = true
    · rw [List.find?_cons_of_pos _ hb] at h
      exact ⟨[], t, by rw [Option.some.inj h]; rfl, by simp⟩
    · rw [List.find?_cons_of_neg _ hb] at h
      rcases ih a h with ⟨l₁, l₂, hdec, hfail⟩
      refine ⟨b :: l₁, l₂, by rw [hdec]; rfl, ?_⟩
      intro x hx
      rcases List.mem_cons.mp hx with rfl | hx
      · exact Bool.eq_false_iff.mpr hb
      · exact hfail x hx

theorem replaceFirstDep_decomp (nm : String) (f : Deployment → Deployment)
    (d : Deployment) (hd : d.name = nm) :
    ∀ (l₁ l₂ : List Deployment), (∀ x ∈ l₁, ¬x.name = nm) →
      replaceFirstDep (l₁ ++ d :: l₂) nm f = l₁ ++ f d :: l₂ := by
  intro l₁
  induction l₁ with
  | nil =>
    intro l₂ _
    show (if d.name = nm then f d :: l₂ else _) = f d :: l₂
    rw [if_pos hd]
  | cons b t ih =>
    intro l₂ hfail
    show (if b.name = nm then _ else b :: replaceFirstDep (t ++ d :: l₂) nm f) = _
    rw [if_neg (hfail b (List.mem_cons_self b t))]
    rw [ih l₂ (fun x hx => hfail x (List.mem_cons_of_mem b hx))]
    rfl

theorem unbindPods_map_idFields :
    ∀ (L : List Pod) (nodes : List WorkerNode),
      (unbindPods nodes L).map nodeIdFields = nodes.map nodeIdFields := by
  intro L
  induction L with
  | nil => intro nodes; rfl
  | cons p L' ih =>
    intro nodes
    show (unbindPods (unbindPodFromNode nodes p) L').map nodeIdFields = _
    rw [ih]
    unfold unbindPodFromNode
    cases p.node with
    | none => rfl
    | some k =>
      exact updateNode_map_idFields nodes k _
        (fun n => nodeIdFields_deallocate_removePod n _ _ _)

theorem allPods_append_single (l : List Deployment) (d : Deployment) :
    (((l ++ [d]).map Deployment.pods).flatten) = (l.map Deployment.pods).flatten ++ d.pods := by
  simp

theorem mkPods_requests (depName : String) (rc : Nat) (c m : ℚ) :
    ∀ p ∈ mkPods depName rc c m, p.cpuRequest = c ∧ p.memoryRequest = m := by
  intro p hp
  rcases List.mem_map.mp hp with ⟨j, _, rfl⟩
  exact ⟨rfl, rfl⟩

theorem allPods_pos {s : SimState} (hDW : DepWf s) :
    ∀ p ∈ allPods s, 0 < p.cpuRequest ∧ 0 < p.memoryRequest := by
  intro p hp
  unfold allPods at hp
  rcases List.mem_flatten.mp hp with ⟨l, hl, hpl⟩
  rcases List.mem_map.mp hl with ⟨d, hd, rfl⟩
  rcases hDW d hd with ⟨hc, hm, hreq⟩
  rcases hreq p hpl with ⟨hqc, hqm⟩
  rw [hqc, hqm]
  exact ⟨hc, hm⟩

theorem invA_createNamespace (s : SimState) (n : String) (c m : ℚ) (hinv : InvA s) :
    InvA (createNamespace s n c m).2 := by
  unfold createNamespace
  cases h : lookupNamespace s n
  · exact hinv
  · exact hinv

theorem invA_addWorkerNode (s : SimState) (name : Option String) (cpu mem : ℚ)
    (hinv : InvA s) : InvA (addWorkerNode s name cpu mem).2 := by
  rcases hinv with ⟨hNA, hDW, hNW, hPU, hBP⟩
  unfold addWorkerNode
  dsimp only
  refine ⟨?_, hDW, ?_, hPU, ?_⟩
  · intro n hn
    rcases List.mem_append.mp hn with hn | hn
    · exact hNA n hn
    · rcases List.mem_singleton.mp hn with rfl
      have hnil : boundTo (allPods s) (s.nodeCounter + 1) = [] := by
        apply boundTo_eq_nil
        intro p hp hbound
        have := hBP p hp (s.nodeCounter + 1) hbound
        rcases List.mem_map.mp this with ⟨m, hm, hmn⟩
        have := hNW m hm
        omega
      show ([] : List Pod).Perm (boundTo (allPods s) (s.nodeCounter + 1))
        ∧ (0 : ℚ) = cpuSum [] ∧ (0 : ℚ) = memSum []
      rw [hnil]
      exact ⟨List.Perm.refl _, rfl, rfl⟩
  · intro n hn
    rcases List.mem_append.mp hn with hn | hn
    · have := hNW n hn
      show n.nid ≤ s.nodeCounter + 1
      omega
    · rcases List.mem_singleton.mp hn with rfl
      exact le_refl _
  · intro p hp nid hnid
    rw [List.map_append]
    exact List.mem_append.mpr (Or.inl (hBP p hp nid hnid))

theorem invA_addDeployment (s : SimState) (name nsName : String) (rc : Nat) (c m : ℚ)
    (hc : 0 < c) (hm : 0 < m) (hinv : InvA s) :
    InvA (addDeployment s name nsName rc c m).2 := by
  unfold addDeployment
  cases hlook : lookupNamespace s nsName
  · exact hinv
  · dsimp only
    split
    · apply invA_allocateDeploymentPods
      rcases hinv with ⟨hNA, hDW, hNW, hPU, hBP⟩
      have hpods : ∀ p ∈ mkPods name rc c m,
          p.status = PodStatus.Pending ∧ p.node = none := mkPods_pending name rc c m
      have hreqs : ∀ p ∈ mkPods name rc c m,
          p.cpuRequest = c ∧ p.memoryRequest = m := mkPods_requests name rc c m
      refine ⟨?_, ?_, hNW, ?_, ?_⟩
      · show NodeAccounting s.workerNodes
          (((s.deployments ++ [_]).map Deployment.pods).flatten)
        rw [allPods_append_single]
        have hins := @nodeAccounting_insert_unbound s.workerNodes (allPods s) []
          (mkPods name rc c m) (fun p hp => (hpods p hp).2)
          (by rw [List.append_nil]; exact hNA)
        rw [List.append_nil] at hins
        exact hins
      · intro d hd
        rcases List.mem_append.mp hd with hd | hd
        · exact hDW d hd
        · rcases List.mem_singleton.mp hd with rfl
          exact ⟨hc, hm, fun p hp => hreqs p hp⟩
      · intro p hp hpend
        rw [show allPods { s with
            namespaces := replaceFirstNs s.namespaces nsName _,
            deployments := s.deployments ++ [_] } =
            ((s.deployments ++ [_]).map Deployment.pods).flatten from rfl,
          allPods_append_single] at hp
        rcases List.mem_append.mp hp with hp | hp
        · exact hPU p hp hpend
        · exact (hpods p hp).2
      · intro p hp nid hnid
        rw [show allPods { s with
            namespaces := replaceFirstNs s.namespaces nsName _,
            deployments := s.deployments ++ [_] } =
            ((s.deployments ++ [_]).map Deployment.pods).flatten from rfl,
          allPods_append_single] at hp
        rcases List.mem_append.mp hp with hp | hp
        · exact hBP p hp nid hnid
        · rw [(hpods p hp).2] at hnid
          exact absurd hnid (by simp)
    · exact hinv

theorem invA_reallocateAllPods (s : SimState) (hDW : DepWf s)
    (hNW : ∀ n ∈ s.workerNodes, n.nid ≤ s.nodeCounter) : InvA (reallocateAllPods s) := by
  unfold reallocateAllPods
  apply foldl_invariant allocateDeploymentPods InvA
    (fun b i hb => invA_allocateDeploymentPods b i hb)
  have hunbound : ∀ p ∈ allPods { s with
      workerNodes := s.workerNodes.map resetNodeAllocation,
      deployments := s.deployments.map resetDeploymentPods },
      p.status = PodStatus.Pending ∧ p.node = none := by
    intro p hp
    unfold allPods at hp
    rcases List.mem_flatten.mp hp with ⟨l, hl, hpl⟩
    rcases List.mem_map.mp hl with ⟨d', hd', rfl⟩
    rcases List.mem_map.mp hd' with ⟨d, hd, rfl⟩
    unfold resetDeploymentPods at hpl
    dsimp only at hpl
    rcases List.mem_map.mp hpl with ⟨q, hq, rfl⟩
    exact ⟨rfl, rfl⟩
  refine ⟨?_, ?_, ?_, ?_, ?_⟩
  · intro n hn
    dsimp only at hn
    rcases List.mem_map.mp hn with ⟨n₀, hn₀, rfl⟩
    have hnil : boundTo (allPods { s with
        workerNodes := s.workerNodes.map resetNodeAllocation,
        deployments := s.deployments.map resetDeploymentPods })
        (resetNodeAllocation n₀).nid = [] := by
      apply boundTo_eq_nil
      intro p hp hbound
      rw [(hunbound p hp).2] at hbound
      exact absurd hbound (by simp)
    rw [hnil]
    exact ⟨List.Perm.refl _, rfl, rfl⟩
  · intro d hd
    dsimp only at hd
    rcases List.mem_map.mp hd with ⟨d₀, hd₀, rfl⟩
    rcases hDW d₀ hd₀ with ⟨hc, hm, hreq⟩
    refine ⟨hc, hm, ?_⟩
    intro p hp
    unfold resetDeploymentPods at hp
    dsimp only at hp
    rcases List.mem_map.mp hp with ⟨q, hq, rfl⟩
    exact hreq q hq
  · intro n hn
    dsimp only at hn
    rcases List.mem_map.mp hn with ⟨n₀, hn₀, rfl⟩
    exact hNW n₀ hn₀
  · intro p hp _
    exact (hunbound p hp).2
  · intro p hp nid hnid
    rw [(hunbound p hp).2] at hnid
    exact absurd hnid (by simp)

theorem addWorkerNodesLoop_nid_le :
    ∀ (k : Nat) (s : SimState), (∀ n ∈ s.workerNodes, n.nid ≤ s.nodeCounter) →
      ∀ n ∈ (addWorkerNodesLoop s k).workerNodes,
        n.nid ≤ (addWorkerNodesLoop s k).nodeCounter := by
  intro k
  induction k with
  | zero => intro s h; exact h
  | succ k ih =>
    intro s h
    unfold addWorkerNodesLoop
    apply ih
    intro n hn
    rcases List.mem_append.mp hn with hn | hn
    · have := h n hn
      show n.nid ≤ s.nodeCounter + 1
      omega
    · rcases List.mem_singleton.mp hn with rfl
      exact le_refl _

theorem invA_setTotalWorkerNodes (s : SimState) (t : Nat) (hinv : InvA s) :
    InvA (setTotalWorkerNodes s t).2 := by
  unfold setTotalWorkerNodes
  dsimp only
  split
  · apply invA_reallocateAllPods
    · exact hinv.2.1
    · intro n hn
      exact hinv.2.2.1 n ((List.take_sublist t s.workerNodes).mem hn)
  · split
    · apply invA_reallocateAllPods
      · intro d hd
        rw [(addWorkerNodesLoop_spec (t - s.workerNodes.length) s).2.2.2] at hd
        exact hinv.2.1 d hd
      · exact addWorkerNodesLoop_nid_le (t - s.workerNodes.length) s hinv.2.2.1
    · exact hinv

theorem allPods_of_append (A B : List Deployment) :
    (((A ++ B).map Deployment.pods).flatten) =
      (A.map Deployment.pods).flatten ++ (B.map Deployment.pods).flatten := by
  simp

theorem invA_scaleDeployment (s : SimState) (name : String) (k : Nat) (hinv : InvA s) :
    InvA (scaleDeployment s name k).2 := by
  unfold scaleDeployment
  cases h1 : s.deployments.find? (fun d => d.name = name) with
  | none => exact hinv
  | some dep =>
    dsimp only
    cases h2 : lookupNamespace s dep.namespaceName with
    | none => exact hinv
    | some ns =>
      dsimp only
      rcases hinv with ⟨hNA, hDW, hNW, hPU, hBP⟩
      rcases find?_decomp _ s.deployments dep h1 with ⟨D1, D2, hdec, hfailD1⟩
      have hdname : dep.name = name := by
        have := List.find?_some h1
        exact of_decide_eq_true this
      have hD1 : ∀ x ∈ D1, ¬x.name = name := by
        intro x hx hc
        have := hfailD1 x hx
        rw [hc] at this
        simp at this
      have hdepmem : dep ∈ s.deployments := by
        rw [hdec]
        exact List.mem_append.mpr (Or.inr (List.mem_cons_self _ _))
      have hrep : replaceFirstDep s.deployments name
          (fun _ => Deployment.createPods { dep with replicaCount := k }) =
          D1 ++ Deployment.createPods { dep with replicaCount := k } :: D2 := by
        conv_lhs => rw [hdec]
        exact replaceFirstDep_decomp name _ dep hdname D1 D2 hD1
      have hps : allPods s =
          (D1.map Deployment.pods).flatten ++ dep.pods ++ (D2.map Deployment.pods).flatten := by
        unfold allPods
        conv_lhs => rw [hdec]
        exact allPods_of_list _ _ _
      have hpos := allPods_pos hDW
      have hNA1 : NodeAccounting (unbindPods s.workerNodes dep.pods)
          ((D1.map Deployment.pods).flatten ++ (D2.map Deployment.pods).flatten) := by
        apply unbindPods_nodeAccounting dep.pods s.workerNodes
        · rw [← hps]
          exact hNA
        · intro q hq
          apply hpos
          rw [hps]
          exact hq
      have hnewpods : Deployment.createPods { dep with replicaCount := k } =
          { dep with
            replicaCount := k,
            pods := mkPods dep.name k dep.cpuRequestPerReplica dep.memoryRequestPerReplica } :=
        rfl
      have hmk := mkPods_pending dep.name k dep.cpuRequestPerReplica dep.memoryRequestPerReplica
      have hmkr := mkPods_requests dep.name k dep.cpuRequestPerReplica dep.memoryRequestPerReplica
      have hmapnid : (unbindPods s.workerNodes dep.pods).map WorkerNode.nid =
          s.workerNodes.map WorkerNode.nid :=
        map_nid_eq_of_map_idFields (unbindPods_map_idFields dep.pods s.workerNodes)
      have hmemX : ∀ p ∈ (D1.map Deployment.pods).flatten, p ∈ allPods s := by
        intro p hp
        rw [hps]
        exact List.mem_append.mpr (Or.inl (List.mem_append.mpr (Or.inl hp)))
      have hmemY : ∀ p ∈ (D2.map Deployment.pods).flatten, p ∈ allPods s := by
        intro p hp
        rw [hps]
        exact List.mem_append.mpr (Or.inr hp)
      have hinvS1 : InvA { s with
          workerNodes := unbindPods s.workerNodes dep.pods,
          namespaces := replaceFirstNs s.namespaces dep.namespaceName
            (fun _ => ns.deallocateResources
              ((dep.replicaCount : ℚ) * dep.cpuRequestPerReplica)
              ((dep.replicaCount : ℚ) * dep.memoryRequestPerReplica)),
          deployments := replaceFirstDep s.deployments name
            (fun _ => Deployment.createPods { dep with replicaCount := k }) } := by
        have hps1 : allPods { s with
            workerNodes := unbindPods s.workerNodes dep.pods,
            namespaces := replaceFirstNs s.namespaces dep.namespaceName
              (fun _ => ns.deallocateResources
                ((dep.replicaCount : ℚ) * dep.cpuRequestPerReplica)
                ((dep.replicaCount : ℚ) * dep.memoryRequestPerReplica)),
            deployments := replaceFirstDep s.deployments name
              (fun _ => Deployment.createPods { dep with replicaCount := k }) } =
            (D1.map Deployment.pods).flatten ++
              mkPods dep.name k dep.cpuRequestPerReplica dep.memoryRequestPerReplica ++
              (D2.map Deployment.pods).flatten := by
          unfold allPods
          dsimp only
          rw [hrep, hnewpods]
          exact allPods_of_list _ _ _
        refine ⟨?_, ?_, ?_, ?_, ?_⟩
        · rw [hps1]
          dsimp only
          exact nodeAccounting_insert_unbound _ (fun p hp => (hmk p hp).2) hNA1
        · intro d hd
          dsimp only at hd
          rw [hrep] at hd
          rcases List.mem_append.mp hd with hd | hd
          · apply hDW
            rw [hdec]
            exact List.mem_append.mpr (Or.inl hd)
          · rcases List.mem_cons.mp hd with rfl | hd
            · rw [hnewpods]
              rcases hDW dep hdepmem with ⟨hc, hm, _⟩
              exact ⟨hc, hm, fun p hp => hmkr p hp⟩
            · apply hDW
              rw [hdec]
              exact List.mem_append.mpr (Or.inr (List.mem_cons_of_mem _ hd))
        · intro n hn
          dsimp only at hn ⊢
          have : n.nid ∈ (unbindPods s.workerNodes dep.pods).map WorkerNode.nid :=
            List.mem_map_of_mem _ hn
          rw [hmapnid] at this
          rcases List.mem_map.mp this with ⟨m, hm, hmn⟩
          rw [← hmn]
          exact hNW m hm
        · intro p hp hpend
          rw [hps1] at hp
          rcases List.mem_append.mp hp with hp | hp
          · rcases List.mem_append.mp hp with hp | hp
            · exact hPU p (hmemX p hp) hpend
            · exact (hmk p hp).2
          · exact hPU p (hmemY p hp) hpend
        · intro p hp nid hnid
          dsimp only
          rw [hmapnid]
          rw [hps1] at hp
          rcases List.mem_append.mp hp with hp | hp
          · rcases List.mem_append.mp hp with hp | hp
            · exact hBP p (hmemX p hp) nid hnid
            · rw [(hmk p hp).2] at hnid
              exact absurd hnid (by simp)
          · exact hBP p (hmemY p hp) nid hnid
      split
      · exact invA_allocateDeploymentPods _ _ hinvS1
      · exact hinvS1

theorem invA_deleteDeployment (s : SimState) (name : String) (hinv : InvA s) :
    InvA (deleteDeployment s name).2 := by
  unfold deleteDeployment
  cases h1 : s.deployments.findIdx? (fun d => d.name = name) with
  | none => exact hinv
  | some i =>
    dsimp only
    cases h2 : s.deployments[i]? with
    | none => exact hinv
    | some dep =>
      dsimp only
      rcases hinv with ⟨hNA, hDW, hNW, hPU, hBP⟩
      have hdec := getElem?_eq_decomp s.deployments i dep h2
      have hps : allPods s =
          ((s.deployments.take i).map Deployment.pods).flatten ++ dep.pods ++
            ((s.deployments.drop (i + 1)).map Deployment.pods).flatten := by
        unfold allPods
        conv_lhs => rw [hdec]
        exact allPods_of_list _ _ _
      have herase := eraseIdx_eq_decomp s.deployments i dep h2
      have hps1 : allPods { s with
          workerNodes := unbindPods s.workerNodes dep.pods,
          namespaces := replaceFirstNs s.namespaces dep.namespaceName
            (fun n =>
              { n.deallocateResources ((dep.replicaCount : ℚ) * dep.cpuRequestPerReplica)
                  ((dep.replicaCount : ℚ) * dep.memoryRequestPerReplica) with
                deployments := (n.deallocateResources
                  ((dep.replicaCount : ℚ) * dep.cpuRequestPerReplica)
                  ((dep.replicaCount : ℚ) * dep.memoryRequestPerReplica)).deployments.erase
                    dep.name }),
          deployments := s.deployments.eraseIdx i } =
          ((s.deployments.take i).map Deployment.pods).flatten ++
            ((s.deployments.drop (i + 1)).map Deployment.pods).flatten := by
        unfold allPods
        dsimp only
        rw [herase]
        exact allPods_of_append _ _
      have hpos := allPods_pos hDW
      have hmapnid : (unbindPods s.workerNodes dep.pods).map WorkerNode.nid =
          s.workerNodes.map WorkerNode.nid :=
        map_nid_eq_of_map_idFields (unbindPods_map_idFields dep.pods s.workerNodes)
      have hmemX : ∀ p ∈ ((s.deployments.take i).map Deployment.pods).flatten,
          p ∈ allPods s := by
        intro p hp
        rw [hps]
        exact List.mem_append.mpr (Or.inl (List.mem_append.mpr (Or.inl hp)))
      have hmemY : ∀ p ∈ ((s.deployments.drop (i + 1)).map Deployment.pods).flatten,
          p ∈ allPods s := by
        intro p hp
        rw [hps]
        exact List.mem_append.mpr (Or.inr hp)
      refine ⟨?_, ?_, ?_, ?_, ?_⟩
      · rw [hps1]
        dsimp only
        apply unbindPods_nodeAccounting dep.pods s.workerNodes
        · rw [← hps]
          exact hNA
        · intro q hq
          apply hpos
          rw [hps]
          exact hq
      · intro d hd
        dsimp only at hd
        rw [herase] at hd
        rcases List.mem_append.mp hd with hd | hd
        · exact hDW d ((List.take_sublist i s.deployments).mem hd)
        · exact hDW d ((List.drop_sublist (i + 1) s.deployments).mem hd)
      · intro n hn
        dsimp only at hn ⊢
        have : n.nid ∈ (unbindPods s.workerNodes dep.pods).map WorkerNode.nid :=
          List.mem_map_of_mem _ hn
        rw [hmapnid] at this
        rcases List.mem_map.mp this with ⟨m, hm, hmn⟩
        rw [← hmn]
        exact hNW m hm
      · intro p hp hpend
        rw [hps1] at hp
        rcases List.mem_append.mp hp with hp | hp
        · exact hPU p (hmemX p hp) hpend
        · exact hPU p (hmemY p hp) hpend
      · intro p hp nid hnid
        dsimp only
        rw [hmapnid]
        rw [hps1] at hp
        rcases List.mem_append.mp hp with hp | hp
        · exact hBP p (hmemX p hp) nid hnid
        · exact hBP p (hmemY p hp) nid hnid

theorem invA_synthesizeDeployments (rng : Nat → Nat) (i nd : Nat) (c m : ℚ)
    (s : SimState) (hinv : InvA s) : InvA (synthesizeDeployments rng i nd c m s) := by
  unfold synthesizeDeployments
  apply foldl_invariant _ InvA _ _ _ hinv
  intro b j hb
  apply invA_addDeployment _ _ _ _ _ _ ?_ ?_ hb
  · exact lt_of_lt_of_le (by norm_num) (le_max_left _ _)
  · exact lt_of_lt_of_le (by norm_num) (le_max_left _ _)

theorem invA_setSimulatedWorkloadFactor (s : SimState) (f : ℚ) (rng : Nat → Nat)
    (hinv : InvA s) : InvA (setSimulatedWorkloadFactor s f rng).2 := by
  unfold setSimulatedWorkloadFactor
  split
  · exact hinv
  · dsimp only
    have hS1 : InvA
        { s with
          simulatedWorkloadFactor := f,
          workerNodes := s.workerNodes.map resetNodeAllocation,
          namespaces := [],
          deployments := [] } := by
      refine ⟨?_, ?_, ?_, ?_, ?_⟩
      · intro n hn
        rcases List.mem_map.mp hn with ⟨n₀, hn₀, rfl⟩
        exact ⟨List.Perm.refl [], rfl, rfl⟩
      · intro d hd
        exact absurd hd (List.not_mem_nil d)
      · intro n hn
        rcases List.mem_map.mp hn with ⟨n₀, hn₀, rfl⟩
        exact hinv.2.2.1 n₀ hn₀
      · intro p hp _
        exact absurd hp (List.not_mem_nil p)
      · intro p hp nid hnid
        exact absurd hp (List.not_mem_nil p)
    split
    · apply foldl_invariant _ InvA _ _ _ hS1
      intro b i hb
      exact invA_synthesizeDeployments _ _ _ _ _ _
        (invA_createNamespace b (simNsName i) _ _ hb)
    · exact hS1

theorem invA_initialSimulator : InvA initialSimulator := by
  refine ⟨?_, ?_, by decide, ?_, ?_⟩
  · intro n hn
    rcases (show ∀ n ∈ initialSimulator.workerNodes,
        n.pods = [] ∧ n.cpuAllocated = 0 ∧ n.memoryAllocated = 0 by decide) n hn
      with ⟨hp, hc, hm⟩
    refine ⟨?_, ?_, ?_⟩
    · rw [hp]
      exact List.Perm.refl []
    · rw [hc, hp]
      rfl
    · rw [hm, hp]
      rfl
  · intro d hd
    rw [show initialSimulator.deployments = [] from rfl] at hd
    exact absurd hd (List.not_mem_nil d)
  · intro p hp
    rw [show allPods initialSimulator = [] from rfl] at hp
    exact absurd hp (List.not_mem_nil p)
  · intro p hp
    rw [show allPods initialSimulator = [] from rfl] at hp
    exact absurd hp (List.not_mem_nil p)

theorem invA_applyOp (s : SimState) (op : Op) (hv : validOp op = true) (hinv : InvA s) :
    InvA (applyOp s op) := by
  cases op with
  | addWorkerNode name cpu mem => exact invA_addWorkerNode s name cpu mem hinv
  | setTotalWorkerNodes t => exact invA_setTotalWorkerNodes s t hinv
  | createNamespace n c m => exact invA_createNamespace s n c m hinv
  | addDeployment n nsn rc c m =>
    unfold validOp at hv
    rw [Bool.and_eq_true] at hv
    rcases hv with ⟨hc, hm⟩
    exact invA_addDeployment s n nsn rc c m (of_decide_eq_true hc) (of_decide_eq_true hm) hinv
  | scaleDeployment n k => exact invA_scaleDeployment s n k hinv
  | deleteDeployment n => exact invA_deleteDeployment s n hinv
  | setSimulatedWorkloadFactor f rng => exact invA_setSimulatedWorkloadFactor s f rng hinv

theorem invA_runOps : ∀ (ops : List Op) (s : SimState), InvA s →
    (∀ op ∈ ops, validOp op = true) → InvA (runOps s ops) := by
  intro ops
  induction ops with
  | nil => intro s h _; exact h
  | cons op rest ih =>
    intro s h hv
    exact ih (applyOp s op) (invA_applyOp s op (hv op (List.mem_cons_self _ _)) h)
      (fun o ho => hv o (List.mem_cons_of_mem _ ho))

/-- C2: after any sequence of interface operations (with the spec's positive
per-replica requests on `addDeployment`), every worker node's `cpuAllocated`
equals the sum of `cpuRequest` over the pods currently bound to it, and likewise
for memory. -/
theorem claim_C2 :
    ∀ (ops : List Op), (∀ op ∈ ops, validOp op = true) →
      ∀ n ∈ (runOps initialSimulator ops).workerNodes,
        n.cpuAllocated = cpuSum (boundTo (allPods (runOps initialSimulator ops)) n.nid)
        ∧ n.memoryAllocated =
            memSum (boundTo (allPods (runOps initialSimulator ops)) n.nid) := by
  intro ops hv n hn
  have hinv := invA_runOps ops initialSimulator invA_initialSimulator hv
  rcases hinv.1 n hn with ⟨h1, h2, h3⟩
  exact ⟨h2.trans (cpuSum_perm h1), h3.trans (memSum_perm h1)⟩

/-- C2 witness: the section-8 scenario run (create namespace, add deployment)
satisfies the node accounting equations. -/
theorem claim_C2_witness :
    (∀ op ∈ demoOps, validOp op = true)
    ∧ ∀ n ∈ (runOps initialSimulator demoOps).workerNodes,
        n.cpuAllocated = cpuSum (boundTo (allPods (runOps initialSimulator demoOps)) n.nid)
        ∧ n.memoryAllocated =
            memSum (boundTo (allPods (runOps initialSimulator demoOps)) n.nid) :=
  ⟨by decide, claim_C2 demoOps (by decide)⟩

/-- C5: a `scaleDeployment` call that fails the namespace quota check for the
new footprint returns false with the namespace table exactly as before the call
(the accounting rollback restores the old footprint), while the deployment keeps
`replicaCount = newReplicaCount` and its pods are the freshly regenerated ones —
all `Pending` and bound to no node; the old pods and bindings are not restored.
The accounting hypotheses (`old footprint ≤ allocated ≤ quota`) hold in every
reachable state and make the clamped rollback exact. -/
theorem claim_C5 :
    ∀ (s : SimState) (name : String) (k : Nat) (dep : Deployment) (ns : Namespace),
      s.deployments.find? (fun d => d.name = name) = some dep →
      lookupNamespace s dep.namespaceName = some ns →
      (dep.replicaCount : ℚ) * dep.cpuRequestPerReplica ≤ ns.cpuAllocated →
      (dep.replicaCount : ℚ) * dep.memoryRequestPerReplica ≤ ns.memoryAllocated →
      ns.cpuAllocated ≤ ns.cpuQuota →
      ns.memoryAllocated ≤ ns.memoryQuota →
      ¬(ns.cpuAllocated - (dep.replicaCount : ℚ) * dep.cpuRequestPerReplica
          + (k : ℚ) * dep.cpuRequestPerReplica ≤ ns.cpuQuota
        ∧ ns.memoryAllocated - (dep.replicaCount : ℚ) * dep.memoryRequestPerReplica
          + (k : ℚ) * dep.memoryRequestPerReplica ≤ ns.memoryQuota) →
      (scaleDeployment s name k).1 = false
      ∧ (scaleDeployment s name k).2.namespaces = s.namespaces
      ∧ (scaleDeployment s name k).2.deployments.find? (fun d => d.name = name) =
          some
            { dep with
              replicaCount := k,
              pods := mkPods dep.name k dep.cpuRequestPerReplica
                dep.memoryRequestPerReplica }
      ∧ ∀ p ∈ mkPods dep.name k dep.cpuRequestPerReplica dep.memoryRequestPerReplica,
          p.status = PodStatus.Pending ∧ p.node = none := by
  intro s name k dep ns h1 h2 h3 h4 h5 h6 h7
  have hname : ns.name = dep.namespaceName := lookupNamespace_name _ _ _ h2
  have hdname : dep.name = name := by
    have := List.find?_some h1
    exact of_decide_eq_true this
  have hmid : ns.deallocateResources
      ((dep.replicaCount : ℚ) * dep.cpuRequestPerReplica)
      ((dep.replicaCount : ℚ) * dep.memoryRequestPerReplica) =
      { ns with
        cpuAllocated :=
          ns.cpuAllocated - (dep.replicaCount : ℚ) * dep.cpuRequestPerReplica,
        memoryAllocated :=
          ns.memoryAllocated - (dep.replicaCount : ℚ) * dep.memoryRequestPerReplica } := by
    unfold Namespace.deallocateResources
    dsimp only
    rw [if_neg (not_lt.mpr (sub_nonneg.mpr h3)), if_neg (not_lt.mpr (sub_nonneg.mpr h4))]
  have hfail : ((ns.deallocateResources
      ((dep.replicaCount : ℚ) * dep.cpuRequestPerReplica)
      ((dep.replicaCount : ℚ) * dep.memoryRequestPerReplica)).allocateResources
      ((k : ℚ) * dep.cpuRequestPerReplica) ((k : ℚ) * dep.memoryRequestPerReplica)).1 =
      false := by
    rw [hmid]
    unfold Namespace.allocateResources
    rw [if_neg h7]
  have hroll : ((ns.deallocateResources
      ((dep.replicaCount : ℚ) * dep.cpuRequestPerReplica)
      ((dep.replicaCount : ℚ) * dep.memoryRequestPerReplica)).allocateResources
      ((dep.replicaCount : ℚ) * dep.cpuRequestPerReplica)
      ((dep.replicaCount : ℚ) * dep.memoryRequestPerReplica)).2 = ns := by
    rw [hmid]
    unfold Namespace.allocateResources
    rw [if_pos (by constructor <;> dsimp only <;> rw [sub_add_cancel] <;> assumption)]
    dsimp only
    rw [sub_add_cancel, sub_add_cancel]
  unfold scaleDeployment
  rw [h1]
  dsimp only
  rw [h2]
  dsimp only
  simp only [hfail, Bool.false_eq_true, if_false]
  refine ⟨trivial, ?_, ?_, mkPods_pending _ _ _ _⟩
  · dsimp only
    rw [hroll]
    rw [replaceFirstNs_comp dep.namespaceName _ _ ?_]
    · exact replaceFirstNs_of_find? dep.namespaceName ns s.namespaces h2
    · intro x hx
      rw [hmid]
      exact hname
  · dsimp only
    apply find?_replaceFirstDep name _ dep s.deployments h1
    exact hdname

/-- C5 witness: scaling the single-replica demo deployment `"d"` (footprint
(3, 40) in quota (10, 100)) to 4 replicas needs (12, 160), fails, returns false
and leaves the namespace table as before. -/
theorem claim_C5_witness :
    (scaleDeployment demoSingle "d" 4).1 = false
    ∧ (scaleDeployment demoSingle "d" 4).2.namespaces = demoSingle.namespaces :=
  ⟨(claim_C5 demoSingle "d" 4 demoDepD demoNsSingle (by decide) (by decide) (by decide)
      (by decide) (by decide) (by decide) (by decide)).1,
   (claim_C5 demoSingle "d" 4 demoDepD demoNsSingle (by decide) (by decide) (by decide)
      (by decide) (by decide) (by decide) (by decide)).2.1⟩

/-- C9: whenever `allocateDeploymentPods` runs with a non-empty node pool, every
`Pending` pod of the deployment becomes `Running` and every pod bound during the
call goes to the same node — the first node of the pool attaining the minimal
`cpuAllocated` at the start of the call; with an empty pool the call changes
nothing (pods stay `Pending`). -/
theorem claim_C9 :
    ∀ (s : SimState) (i : Nat) (dep : Deployment),
      s.deployments[i]? = some dep →
      (s.workerNodes = [] → allocateDeploymentPods s i = s)
      ∧ (s.workerNodes ≠ [] →
          ∃ n0, firstMinCpuNode s.workerNodes = some n0 ∧
            (allocateDeploymentPods s i).deployments =
              s.deployments.set i
                { dep with pods := dep.pods.map (fun p =>
                    if p.status = PodStatus.Pending then bindPod p n0.nid else p) } ∧
            ∀ p ∈ dep.pods.map (fun p =>
                if p.status = PodStatus.Pending then bindPod p n0.nid else p),
              p.status = PodStatus.Running) := by
  intro s i dep hi
  constructor
  · intro hempty
    unfold allocateDeploymentPods
    rw [hi]
    have hsort : sortNodesByCpu s.workerNodes = [] := by rw [hempty]; rfl
    rw [hsort]
    simp only [List.map_nil, placePodsLoop_nil_order]
    have hset : s.deployments.set i { dep with pods := dep.pods } = s.deployments := by
      exact set_getElem?_self s.deployments i dep hi
    rw [hset]
  · intro hne
    rcases hs : sortNodesByCpu s.workerNodes with _ | ⟨n0, rest⟩
    · exfalso
      have hp := sortNodesByCpu_perm s.workerNodes
      rw [hs] at hp
      exact hne hp.symm.eq_nil
    · refine ⟨n0, ?_, ?_, ?_⟩
      · rw [← head?_sortNodesByCpu, hs]
        rfl
      · unfold allocateDeploymentPods
        rw [hi, hs]
        simp only [List.map_cons, placePodsLoop_cons_order_fst]
      · intro p hp
        rcases List.mem_map.mp hp with ⟨q, hq, rfl⟩
        cases hqs : q.status
        · simp [hqs, bindPod]
        · simp [hqs]

/-- C9 witness: re-running placement on the already-placed demo deployment: the
pool is non-empty, its first minimum node exists, and every pod ends `Running`. -/
theorem claim_C9_witness :
    ∃ n0, firstMinCpuNode demoDeployed.workerNodes = some n0 ∧
      (allocateDeploymentPods demoDeployed 0).deployments =
        demoDeployed.deployments.set 0
          { demoDepD1 with pods := demoDepD1.pods.map (fun p =>
              if p.status = PodStatus.Pending then bindPod p n0.nid else p) } ∧
      ∀ p ∈ demoDepD1.pods.map (fun p =>
          if p.status = PodStatus.Pending then bindPod p n0.nid else p),
        p.status = PodStatus.Running :=
  (claim_C9 demoDeployed 0 demoDepD1 (by decide)).2 (by decide)

/-- C4 counterexample: in the spec's concrete scenario the two replicas of `"d1"`
are both bound to node 1 (`worker-node-1`) — not to two distinct nodes as the
claim states. -/
theorem claim_C4_counterexample :
    ((demoDeployed.deployments.map (fun d => d.pods.map Pod.node)) = [[some 1, some 1]])
    ∧ ¬∃ n1 n2 : Nat, n1 ≠ n2 ∧
        (demoDeployed.deployments.map (fun d => d.pods.map Pod.node)) = [[some n1, some n2]] := by
  constructor
  · decide
  · rintro ⟨n1, n2, hne, h⟩
    have h1 : (demoDeployed.deployments.map (fun d => d.pods.map Pod.node)) =
        [[some 1, some 1]] := by decide
    rw [h] at h1
    simp only [List.cons.injEq, Option.some.injEq, and_true] at h1
    exact hne (h1.1.trans h1.2.symm)

/-- C4 (amended): placement considers the full pool stable-sorted ascending by
`cpuAllocated` (a permutation of the pool, sorted, ties keeping pool order) and
binds each pending pod to the first candidate; in the concrete scenario
`addDeployment("d1","a",2,3,40)` on the fresh 3-node cluster succeeds, the
namespace ends at (6, 80) allocated, and both pods are `Running` on the single
least-loaded candidate `worker-node-1` (node 1) — the same node, not two
distinct nodes. -/
theorem claim_C4 :
    (∀ nodes : List WorkerNode,
        (sortNodesByCpu nodes).Perm nodes
        ∧ (sortNodesByCpu nodes).Pairwise (fun x y => x.cpuAllocated ≤ y.cpuAllocated)
        ∧ (sortNodesByCpu nodes).head? = firstMinCpuNode nodes)
    ∧ (addDeployment demoBase "d1" "a" 2 3 40).1 = some demoDepD1
    ∧ (demoDeployed.namespaces.map (fun ns => (ns.cpuAllocated, ns.memoryAllocated))) = [(6, 80)]
    ∧ demoDeployed.deployments = [demoDepD1]
    ∧ demoDepD1.pods.map (fun p => (p.status, p.node)) =
        [(PodStatus.Running, some 1), (PodStatus.Running, some 1)]
    ∧ (firstMinCpuNode demoBase.workerNodes).map WorkerNode.name = some "worker-node-1" :=
  ⟨fun nodes => ⟨sortNodesByCpu_perm nodes, sortNodesByCpu_pairwise nodes,
      head?_sortNodesByCpu nodes⟩,
   by decide, by decide, by decide, by decide, by decide⟩

/-- C10 witness: a fresh namespace with negative CPU quota is stored as given,
and a positive allocation against it fails. -/
theorem claim_C10_witness :
    (createNamespace initialSimulator "x" (-1) 0 =
      (some demoNsNeg,
       { initialSimulator with namespaces := initialSimulator.namespaces ++ [demoNsNeg] }))
    ∧ (demoNsNeg.allocateResources 1 1).1 = false :=
  ⟨(claim_C10 initialSimulator "x" (-1) 0).1 (by decide),
   (claim_C10 initialSimulator "x" (-1) 0).2 demoNsNeg 1 1
     (by decide) (by decide) (Or.inl (by decide)) (by decide) (by decide)⟩

/-! ### Namespace accounting (claim C1) -/

theorem depsCpuSum_append (l₁ l₂ : List Deployment) (nm : String) :
    depsCpuSum (l₁ ++ l₂) nm = depsCpuSum l₁ nm + depsCpuSum l₂ nm := by
  unfold depsCpuSum
  rw [List.filter_append, List.map_append, List.sum_append]

theorem depsMemSum_append (l₁ l₂ : List Deployment) (nm : String) :
    depsMemSum (l₁ ++ l₂) nm = depsMemSum l₁ nm + depsMemSum l₂ nm := by
  unfold depsMemSum
  rw [List.filter_append, List.map_append, List.sum_append]

theorem depsCpuSum_cons (d : Deployment) (l : List Deployment) (nm : String) :
    depsCpuSum (d :: l) nm =
      (if d.namespaceName = nm then (d.replicaCount : ℚ) * d.cpuRequestPerReplica else 0)
        + depsCpuSum l nm := by
  unfold depsCpuSum
  by_cases h : d.namespaceName = nm
  · rw [if_pos h, List.filter_cons_of_pos (by simpa using h), List.map_cons, List.sum_cons]
  · rw [if_neg h, List.filter_cons_of_neg (by simpa using h), zero_add]

theorem depsMemSum_cons (d : Deployment) (l : List Deployment) (nm : String) :
    depsMemSum (d :: l) nm =
      (if d.namespaceName = nm then (d.replicaCount : ℚ) * d.memoryRequestPerReplica else 0)
        + depsMemSum l nm := by
  unfold depsMemSum
  by_cases h : d.namespaceName = nm
  · rw [if_pos h, List.filter_cons_of_pos (by simpa using h), List.map_cons, List.sum_cons]
  · rw [if_neg h, List.filter_cons_of_neg (by simpa using h), zero_add]

theorem depsCpuSum_middle (l₁ l₂ : List Deployment) (d : Deployment) (nm : String) :
    depsCpuSum (l₁ ++ d :: l₂) nm =
      depsCpuSum l₁ nm +
        ((if d.namespaceName = nm then (d.replicaCount : ℚ) * d.cpuRequestPerReplica else 0)
          + depsCpuSum l₂ nm) := by
  rw [depsCpuSum_append, depsCpuSum_cons]

theorem depsMemSum_middle (l₁ l₂ : List Deployment) (d : Deployment) (nm : String) :
    depsMemSum (l₁ ++ d :: l₂) nm =
      depsMemSum l₁ nm +
        ((if d.namespaceName = nm then (d.replicaCount : ℚ) * d.memoryRequestPerReplica else 0)
          + depsMemSum l₂ nm) := by
  rw [depsMemSum_append, depsMemSum_cons]

theorem depsCpuSum_nonneg (l : List Deployment) (nm : String)
    (hpos : ∀ d ∈ l, 0 ≤ d.cpuRequestPerReplica) : 0 ≤ depsCpuSum l nm := by
  unfold depsCpuSum
  apply List.sum_nonneg
  intro x hx
  rcases List.mem_map.mp hx with ⟨d, hd, rfl⟩
  exact mul_nonneg (Nat.cast_nonneg _) (hpos d (List.mem_of_mem_filter hd))

theorem depsMemSum_nonneg (l : List Deployment) (nm : String)
    (hpos : ∀ d ∈ l, 0 ≤ d.memoryRequestPerReplica) : 0 ≤ depsMemSum l nm := by
  unfold depsMemSum
  apply List.sum_nonneg
  intro x hx
  rcases List.mem_map.mp hx with ⟨d, hd, rfl⟩
  exact mul_nonneg (Nat.cast_nonneg _) (hpos d (List.mem_of_mem_filter hd))

theorem depsCpuSum_depFields (l : List Deployment) (nm : String) :
    depsCpuSum l nm =
      (((l.map depFields).filter (fun x => x.2.1 = nm)).map
        (fun x => (x.2.2.1 : ℚ) * x.2.2.2.1)).sum := by
  unfold depsCpuSum
  rw [List.filter_map, List.map_map]
  rfl

theorem depsMemSum_depFields (l : List Deployment) (nm : String) :
    depsMemSum l nm =
      (((l.map depFields).filter (fun x => x.2.1 = nm)).map
        (fun x => (x.2.2.1 : ℚ) * x.2.2.2.2)).sum := by
  unfold depsMemSum
  rw [List.filter_map, List.map_map]
  rfl

theorem depsCpuSum_eq_of_map_depFields {l l' : List Deployment}
    (h : l.map depFields = l'.map depFields) (nm : String) :
    depsCpuSum l nm = depsCpuSum l' nm := by
  rw [depsCpuSum_depFields, depsCpuSum_depFields, h]

theorem depsMemSum_eq_of_map_depFields {l l' : List Deployment}
    (h : l.map depFields = l'.map depFields) (nm : String) :
    depsMemSum l nm = depsMemSum l' nm := by
  rw [depsMemSum_depFields, depsMemSum_depFields, h]

/-- `InvB` only depends on the namespace table and the `depFields` projections
of the deployment list, so it transports across node (re)placement. -/
theorem invB_transport {s s' : SimState}
    (hns : s'.namespaces = s.namespaces)
    (hdep : s'.deployments.map depFields = s.deployments.map depFields)
    (hinv : InvB s) : InvB s' := by
  obtain ⟨hnd, hex, hpos, hacc⟩ := hinv
  have hfield : ∀ d ∈ s'.deployments, ∃ d₀ ∈ s.deployments,
      d₀.namespaceName = d.namespaceName
      ∧ d₀.cpuRequestPerReplica = d.cpuRequestPerReplica
      ∧ d₀.memoryRequestPerReplica = d.memoryRequestPerReplica := by
    intro d hd
    have hmem : depFields d ∈ s.deployments.map depFields := by
      rw [← hdep]
      exact List.mem_map_of_mem _ hd
    rcases List.mem_map.mp hmem with ⟨d₀, hd₀, hfe⟩
    refine ⟨d₀, hd₀, ?_, ?_, ?_⟩
    · exact congrArg (fun x : String × String × Nat × ℚ × ℚ => x.2.1) hfe
    · exact congrArg (fun x : String × String × Nat × ℚ × ℚ => x.2.2.2.1) hfe
    · exact congrArg (fun x : String × String × Nat × ℚ × ℚ => x.2.2.2.2) hfe
  refine ⟨?_, ?_, ?_, ?_⟩
  · rw [hns]
    exact hnd
  · intro d hd
    rcases hfield d hd with ⟨d₀, hd₀, hnm, _, _⟩
    rw [hns, ← hnm]
    exact hex d₀ hd₀
  · intro d hd
    rcases hfield d hd with ⟨d₀, hd₀, _, hcp, hmp⟩
    rw [← hcp, ← hmp]
    exact hpos d₀ hd₀
  · intro ns hmem
    rw [hns] at hmem
    rcases hacc ns hmem with ⟨hc, hm⟩
    constructor
    · show ns.cpuAllocated = depsCpuSum s'.deployments ns.name
      rw [depsCpuSum_eq_of_map_depFields hdep]
      exact hc
    · show ns.memoryAllocated = depsMemSum s'.deployments ns.name
      rw [depsMemSum_eq_of_map_depFields hdep]
      exact hm

/-- Exact (unclamped) namespace deallocation when the subtracted footprint is
at most the allocated amount. -/
theorem ns_deallocate_exact (ns : Namespace) (c m : ℚ)
    (hc : c ≤ ns.cpuAllocated) (hm : m ≤ ns.memoryAllocated) :
    ns.deallocateResources c m =
      { ns with cpuAllocated := ns.cpuAllocated - c,
                memoryAllocated := ns.memoryAllocated - m } := by
  unfold Namespace.deallocateResources
  dsimp only
  rw [if_neg (by linarith), if_neg (by linarith)]

/-- Shape of a successful namespace allocation. -/
theorem ns_allocate_of_true (ns : Namespace) (c m : ℚ)
    (h : (ns.allocateResources c m).1 = true) :
    (ns.allocateResources c m).2 =
      { ns with cpuAllocated := ns.cpuAllocated + c,
                memoryAllocated := ns.memoryAllocated + m } := by
  unfold Namespace.allocateResources at h ⊢
  by_cases hcond : ns.cpuAllocated + c ≤ ns.cpuQuota ∧ ns.memoryAllocated + m ≤ ns.memoryQuota
  · rw [if_pos hcond]
  · rw [if_neg hcond] at h
    exact absurd h (by simp)

theorem replaceFirstNs_decomp (nm : String) (f : Namespace → Namespace)
    (a : Namespace) (ha : a.name = nm) :
    ∀ (l₁ l₂ : List Namespace), (∀ x ∈ l₁, ¬x.name = nm) →
      replaceFirstNs (l₁ ++ a :: l₂) nm f = l₁ ++ f a :: l₂ := by
  intro l₁
  induction l₁ with
  | nil =>
    intro l₂ _
    show (if a.name = nm then f a :: l₂ else _) = f a :: l₂
    rw [if_pos ha]
  | cons b t ih =>
    intro l₂ hfail
    show (if b.name = nm then _ else b :: replaceFirstNs (t ++ a :: l₂) nm f) = _
    rw [if_neg (hfail b (List.mem_cons_self b t))]
    rw [ih l₂ (fun x hx => hfail x (List.mem_cons_of_mem b hx))]
    rfl

/-- In a duplicate-free namespace table decomposed around `a`, the namespaces to
the right of `a` carry names different from `a.name`. -/
theorem nodup_names_right {l₁ l₂ : List Namespace} {a : Namespace}
    (h : ((l₁ ++ a :: l₂).map Namespace.name).Nodup) :
    ∀ x ∈ l₂, ¬x.name = a.name := by
  rw [List.map_append, List.map_cons] at h
  have h2 := h.of_append_right
  rw [List.nodup_cons] at h2
  intro x hx hxa
  exact h2.1 (hxa ▸ List.mem_map_of_mem Namespace.name hx)

theorem depsSums_eq_zero {l : List Deployment} {nm : String}
    (h : ∀ d ∈ l, ¬d.namespaceName = nm) :
    depsCpuSum l nm = 0 ∧ depsMemSum l nm = 0 := by
  have hfil : l.filter (fun d => d.namespaceName = nm) = [] := by
    rw [List.filter_eq_nil_iff]
    intro a ha
    simpa using h a ha
  unfold depsCpuSum depsMemSum
  rw [hfil]
  exact ⟨rfl, rfl⟩

theorem invB_addWorkerNode (s : SimState) (name : Option String) (cpu mem : ℚ)
    (hinv : InvB s) : InvB (addWorkerNode s name cpu mem).2 :=
  invB_transport rfl rfl hinv

theorem addWorkerNodesLoop_ns_dep :
    ∀ (k : Nat) (s : SimState), (addWorkerNodesLoop s k).namespaces = s.namespaces
      ∧ (addWorkerNodesLoop s k).deployments = s.deployments := by
  intro k
  induction k with
  | zero => intro s; exact ⟨rfl, rfl⟩
  | succ n ih => intro s; exact ⟨(ih _).1, (ih _).2⟩

theorem reallocateAllPods_ns_depFields (s : SimState) :
    (reallocateAllPods s).namespaces = s.namespaces
    ∧ (reallocateAllPods s).deployments.map depFields = s.deployments.map depFields := by
  unfold reallocateAllPods
  apply foldl_invariant allocateDeploymentPods
    (fun b => b.namespaces = s.namespaces
      ∧ b.deployments.map depFields = s.deployments.map depFields)
  · intro b i hb
    rw [allocateDeploymentPods_namespaces, allocateDeploymentPods_map_depFields]
    exact hb
  · refine ⟨rfl, ?_⟩
    show (s.deployments.map resetDeploymentPods).map depFields = s.deployments.map depFields
    rw [List.map_map]
    exact List.map_congr_left (fun d _ => rfl)

theorem invB_setTotalWorkerNodes (s : SimState) (t : Nat) (hinv : InvB s) :
    InvB (setTotalWorkerNodes s t).2 := by
  unfold setTotalWorkerNodes
  dsimp only
  split
  · refine invB_transport ?_ ?_ hinv
    · rw [(reallocateAllPods_ns_depFields _).1]
    · rw [(reallocateAllPods_ns_depFields _).2]
  · split
    · refine invB_transport ?_ ?_ hinv
      · rw [(reallocateAllPods_ns_depFields _).1,
          (addWorkerNodesLoop_ns_dep (t - s.workerNodes.length) s).1]
      · rw [(reallocateAllPods_ns_depFields _).2,
          (addWorkerNodesLoop_ns_dep (t - s.workerNodes.length) s).2]
    · exact hinv

theorem invB_createNamespace (s : SimState) (n : String) (c m : ℚ)
    (hinv : InvB s) : InvB (createNamespace s n c m).2 := by
  obtain ⟨hnd, hex, hpos, hacc⟩ := hinv
  unfold createNamespace
  cases hlook : lookupNamespace s n with
  | some ns => exact ⟨hnd, hex, hpos, hacc⟩
  | none =>
    have hfresh : ∀ x ∈ s.namespaces, ¬x.name = n := by
      intro x hx hxn
      unfold lookupNamespace at hlook
      have := List.find?_eq_none.mp hlook x hx
      simp [hxn] at this
    refine ⟨?_, ?_, hpos, ?_⟩
    · rw [List.map_append]
      refine List.Nodup.append hnd (List.nodup_singleton n) ?_
      intro a ha hb
      rcases List.mem_map.mp ha with ⟨x, hx, rfl⟩
      exact hfresh x hx (List.mem_singleton.mp hb)
    · intro d hd
      rw [List.map_append]
      exact List.mem_append_left _ (hex d hd)
    · intro ns hmem
      rcases List.mem_append.mp hmem with hmem | hmem
      · exact hacc ns hmem
      · rcases List.mem_singleton.mp hmem with rfl
      -- The fresh namespace starts with zero counters, and no deployment
      -- can be registered under a name absent from the table.
        have hnone : ∀ d ∈ s.deployments, ¬d.namespaceName = n := by
          intro d hd hdn
          rcases List.mem_map.mp (hex d hd) with ⟨x, hx, hxn⟩
          exact hfresh x hx (by rw [hxn, hdn])
        rcases depsSums_eq_zero hnone with ⟨hc0, hm0⟩
        constructor
        · show (0 : ℚ) = depsCpuSum s.deployments n
          rw [hc0]
        · show (0 : ℚ) = depsMemSum s.deployments n
          rw [hm0]

theorem depsCpuSum_snoc (l : List Deployment) (d : Deployment) (nm : String) :
    depsCpuSum (l ++ [d]) nm = depsCpuSum l nm +
      (if d.namespaceName = nm then (d.replicaCount : ℚ) * d.cpuRequestPerReplica else 0) := by
  rw [depsCpuSum_append, depsCpuSum_cons]
  have h0 : depsCpuSum [] nm = 0 := rfl
  rw [h0, add_zero]

theorem depsMemSum_snoc (l : List Deployment) (d : Deployment) (nm : String) :
    depsMemSum (l ++ [d]) nm = depsMemSum l nm +
      (if d.namespaceName = nm then (d.replicaCount : ℚ) * d.memoryRequestPerReplica else 0) := by
  rw [depsMemSum_append, depsMemSum_cons]
  have h0 : depsMemSum [] nm = 0 := rfl
  rw [h0, add_zero]

/-- Core of `addDeployment` preservation: registering a fresh deployment in a
namespace whose quota admits it keeps the namespace accounting equations. -/
theorem invB_insert_dep (s : SimState) (ns : Namespace) (nsName depName : String)
    (rc : Nat) (c m : ℚ) (hc : 0 < c) (hm : 0 < m)
    (hlook : lookupNamespace s nsName = some ns)
    (hres : (ns.allocateResources ((rc : ℚ) * c) ((rc : ℚ) * m)).1 = true)
    (hinv : InvB s) (pods : List Pod) :
    InvB { s with
      namespaces := replaceFirstNs s.namespaces nsName
        (fun n0 => { (ns.allocateResources ((rc : ℚ) * c) ((rc : ℚ) * m)).2 with
          deployments := n0.deployments ++ [depName] }),
      deployments := s.deployments ++
        [{ name := depName, namespaceName := nsName, replicaCount := rc,
           cpuRequestPerReplica := c, memoryRequestPerReplica := m, pods := pods }] } := by
  obtain ⟨hnd, hex, hpos, hacc⟩ := hinv
  have hnsname : ns.name = nsName := lookupNamespace_name s nsName ns hlook
  rcases find?_decomp _ s.namespaces ns hlook with ⟨N1, N2, hdecN, hfailN⟩
  have hfailN1 : ∀ x ∈ N1, ¬x.name = nsName := by
    intro x hx hxn
    have := hfailN x hx
    rw [hxn] at this
    simp at this
  have hndN := hnd
  rw [hdecN] at hndN
  have hrightN : ∀ x ∈ N2, ¬x.name = ns.name := nodup_names_right hndN
  have halloc := ns_allocate_of_true ns ((rc : ℚ) * c) ((rc : ℚ) * m) hres
  have hrepl : replaceFirstNs s.namespaces nsName
      (fun n0 => { (ns.allocateResources ((rc : ℚ) * c) ((rc : ℚ) * m)).2 with
        deployments := n0.deployments ++ [depName] }) =
      N1 ++ { (ns.allocateResources ((rc : ℚ) * c) ((rc : ℚ) * m)).2 with
        deployments := ns.deployments ++ [depName] } :: N2 := by
    conv_lhs => rw [hdecN]
    exact replaceFirstNs_decomp nsName _ ns hnsname N1 N2 hfailN1
  have hnewname : ({ (ns.allocateResources ((rc : ℚ) * c) ((rc : ℚ) * m)).2 with
      deployments := ns.deployments ++ [depName] } : Namespace).name = ns.name := by
    rw [halloc]
  have hnsmem : ns ∈ s.namespaces := by
    rw [hdecN]
    exact List.mem_append_right _ (List.mem_cons_self _ _)
  refine ⟨?_, ?_, ?_, ?_⟩
  · show ((replaceFirstNs s.namespaces nsName _).map Namespace.name).Nodup
    rw [hrepl, List.map_append, List.map_cons, hnewname]
    rw [List.map_append, List.map_cons] at hndN
    exact hndN
  · intro d hd
    show d.namespaceName ∈ (replaceFirstNs s.namespaces nsName _).map Namespace.name
    rw [hrepl, List.map_append, List.map_cons, hnewname]
    rcases List.mem_append.mp hd with hd | hd
    · have hmem := hex d hd
      rw [hdecN, List.map_append, List.map_cons] at hmem
      exact hmem
    · rcases List.mem_singleton.mp hd with rfl
      show nsName ∈ _
      rw [← hnsname]
      exact List.mem_append_right _ (List.mem_cons_self _ _)
  · intro d hd
    rcases List.mem_append.mp hd with hd | hd
    · exact hpos d hd
    · rcases List.mem_singleton.mp hd with rfl
      exact ⟨hc, hm⟩
  · intro nx hmem
    replace hmem : nx ∈ N1 ++ { (ns.allocateResources ((rc : ℚ) * c) ((rc : ℚ) * m)).2 with
        deployments := ns.deployments ++ [depName] } :: N2 := by
      rw [← hrepl]
      exact hmem
    have hgoalc : nx.cpuAllocated = depsCpuSum (s.deployments ++
        [{ name := depName, namespaceName := nsName, replicaCount := rc,
           cpuRequestPerReplica := c, memoryRequestPerReplica := m, pods := pods }]) nx.name
        ∧ nx.memoryAllocated = depsMemSum (s.deployments ++
        [{ name := depName, namespaceName := nsName, replicaCount := rc,
           cpuRequestPerReplica := c, memoryRequestPerReplica := m, pods := pods }]) nx.name →
        nx.cpuAllocated = nsCpuSum { s with
          namespaces := replaceFirstNs s.namespaces nsName
            (fun n0 => { (ns.allocateResources ((rc : ℚ) * c) ((rc : ℚ) * m)).2 with
              deployments := n0.deployments ++ [depName] }),
          deployments := s.deployments ++
            [{ name := depName, namespaceName := nsName, replicaCount := rc,
               cpuRequestPerReplica := c, memoryRequestPerReplica := m, pods := pods }] }
          nx.name
        ∧ nx.memoryAllocated = nsMemSum { s with
          namespaces := replaceFirstNs s.namespaces nsName
            (fun n0 => { (ns.allocateResources ((rc : ℚ) * c) ((rc : ℚ) * m)).2 with
              deployments := n0.deployments ++ [depName] }),
          deployments := s.deployments ++
            [{ name := depName, namespaceName := nsName, replicaCount := rc,
               cpuRequestPerReplica := c, memoryRequestPerReplica := m, pods := pods }] }
          nx.name := fun h => h
    apply hgoalc
    rw [depsCpuSum_snoc, depsMemSum_snoc]
    dsimp only
    rcases List.mem_append.mp hmem with hx | hx
    · have hne : ¬(nsName = nx.name) := fun h => hfailN1 nx hx h.symm
      rw [if_neg hne, if_neg hne, add_zero, add_zero]
      have hx' : nx ∈ s.namespaces := by
        rw [hdecN]
        exact List.mem_append_left _ hx
      exact hacc nx hx'
    · rcases List.mem_cons.mp hx with rfl | hx
      · rcases hacc ns hnsmem with ⟨hcx, hmx⟩
        rw [hnewname]
        have hcalloc : ({ (ns.allocateResources ((rc : ℚ) * c) ((rc : ℚ) * m)).2 with
            deployments := ns.deployments ++ [depName] } : Namespace).cpuAllocated =
            ns.cpuAllocated + (rc : ℚ) * c := by
          rw [halloc]
        have hmalloc : ({ (ns.allocateResources ((rc : ℚ) * c) ((rc : ℚ) * m)).2 with
            deployments := ns.deployments ++ [depName] } : Namespace).memoryAllocated =
            ns.memoryAllocated + (rc : ℚ) * m := by
          rw [halloc]
        rw [hcalloc, hmalloc, if_pos hnsname.symm, if_pos hnsname.symm]
        have hcx' : ns.cpuAllocated = depsCpuSum s.deployments ns.name := hcx
        have hmx' : ns.memoryAllocated = depsMemSum s.deployments ns.name := hmx
        constructor
        · rw [hcx']
        · rw [hmx']
      · have hne : ¬(nsName = nx.name) := fun h => hrightN nx hx (h ▸ hnsname).symm
        rw [if_neg hne, if_neg hne, add_zero, add_zero]
        have hx' : nx ∈ s.namespaces := by
          rw [hdecN]
          exact List.mem_append_right _ (List.mem_cons_of_mem _ hx)
        exact hacc nx hx'

theorem invB_addDeployment (s : SimState) (name nsName : String) (rc : Nat) (c m : ℚ)
    (hc : 0 < c) (hm : 0 < m) (hinv : InvB s) :
    InvB (addDeployment s name nsName rc c m).2 := by
  unfold addDeployment
  cases hlook : lookupNamespace s nsName with
  | none => exact hinv
  | some ns =>
    dsimp only
    split
    next hres =>
      exact invB_transport (allocateDeploymentPods_namespaces _ _)
        (allocateDeploymentPods_map_depFields _ _)
        (invB_insert_dep s ns nsName name rc c m hc hm hlook hres hinv (mkPods name rc c m))
    next hres => exact hinv

/-- Core of `scaleDeployment` preservation on success: deallocating the old
footprint and allocating the new one matches the replaced deployment's new
replica count, for every namespace in the table. -/
theorem invB_scale_core (s : SimState) (name : String) (k : Nat) (dep : Deployment)
    (ns : Namespace)
    (h1 : s.deployments.find? (fun d => d.name = name) = some dep)
    (h2 : lookupNamespace s dep.namespaceName = some ns)
    (hres : ((ns.deallocateResources ((dep.replicaCount : ℚ) * dep.cpuRequestPerReplica)
        ((dep.replicaCount : ℚ) * dep.memoryRequestPerReplica)).allocateResources
        ((k : ℚ) * dep.cpuRequestPerReplica) ((k : ℚ) * dep.memoryRequestPerReplica)).1 = true)
    (hinv : InvB s) (nodes1 : List WorkerNode) :
    InvB { s with
      workerNodes := nodes1,
      namespaces := replaceFirstNs
        (replaceFirstNs s.namespaces dep.namespaceName (fun _ =>
          ns.deallocateResources ((dep.replicaCount : ℚ) * dep.cpuRequestPerReplica)
            ((dep.replicaCount : ℚ) * dep.memoryRequestPerReplica)))
        dep.namespaceName (fun _ =>
          ((ns.deallocateResources ((dep.replicaCount : ℚ) * dep.cpuRequestPerReplica)
            ((dep.replicaCount : ℚ) * dep.memoryRequestPerReplica)).allocateResources
            ((k : ℚ) * dep.cpuRequestPerReplica)
            ((k : ℚ) * dep.memoryRequestPerReplica)).2),
      deployments := replaceFirstDep s.deployments name
        (fun _ => Deployment.createPods { dep with replicaCount := k }) } := by
  obtain ⟨hnd, hex, hpos, hacc⟩ := hinv
  have hdname : dep.name = name := by
    have := List.find?_some h1
    exact of_decide_eq_true this
  have hnsname : ns.name = dep.namespaceName :=
    lookupNamespace_name s dep.namespaceName ns h2
  rcases find?_decomp _ s.deployments dep h1 with ⟨D1, D2, hdecD, hfailD⟩
  have hD1 : ∀ x ∈ D1, ¬x.name = name := by
    intro x hx hxn
    have := hfailD x hx
    rw [hxn] at this
    simp at this
  rcases find?_decomp _ s.namespaces ns h2 with ⟨N1, N2, hdecN, hfailN⟩
  have hfailN1 : ∀ x ∈ N1, ¬x.name = dep.namespaceName := by
    intro x hx hxn
    have := hfailN x hx
    rw [hxn] at this
    simp at this
  have hndN := hnd
  rw [hdecN] at hndN
  have hrightN : ∀ x ∈ N2, ¬x.name = ns.name := nodup_names_right hndN
  have hdepmem : dep ∈ s.deployments := by
    rw [hdecD]
    exact List.mem_append_right _ (List.mem_cons_self _ _)
  have hnsmem : ns ∈ s.namespaces := by
    rw [hdecN]
    exact List.mem_append_right _ (List.mem_cons_self _ _)
  have hD1c : ∀ d ∈ D1, 0 ≤ d.cpuRequestPerReplica := fun d hd =>
    le_of_lt (hpos d (by rw [hdecD]; exact List.mem_append_left _ hd)).1
  have hD1m : ∀ d ∈ D1, 0 ≤ d.memoryRequestPerReplica := fun d hd =>
    le_of_lt (hpos d (by rw [hdecD]; exact List.mem_append_left _ hd)).2
  have hD2c : ∀ d ∈ D2, 0 ≤ d.cpuRequestPerReplica := fun d hd =>
    le_of_lt (hpos d (by
      rw [hdecD]; exact List.mem_append_right _ (List.mem_cons_of_mem _ hd))).1
  have hD2m : ∀ d ∈ D2, 0 ≤ d.memoryRequestPerReplica := fun d hd =>
    le_of_lt (hpos d (by
      rw [hdecD]; exact List.mem_append_right _ (List.mem_cons_of_mem _ hd))).2
  rcases hacc ns hnsmem with ⟨hcns, hmns⟩
  have hcns' : ns.cpuAllocated = depsCpuSum s.deployments ns.name := hcns
  have hmns' : ns.memoryAllocated = depsMemSum s.deployments ns.name := hmns
  rw [hdecD, depsCpuSum_middle, if_pos hnsname.symm] at hcns'
  rw [hdecD, depsMemSum_middle, if_pos hnsname.symm] at hmns'
  have hlec : (dep.replicaCount : ℚ) * dep.cpuRequestPerReplica ≤ ns.cpuAllocated := by
    have hn1 := depsCpuSum_nonneg D1 ns.name hD1c
    have hn2 := depsCpuSum_nonneg D2 ns.name hD2c
    linarith [hcns']
  have hlem : (dep.replicaCount : ℚ) * dep.memoryRequestPerReplica ≤ ns.memoryAllocated := by
    have hn1 := depsMemSum_nonneg D1 ns.name hD1m
    have hn2 := depsMemSum_nonneg D2 ns.name hD2m
    linarith [hmns']
  have hdealloc := ns_deallocate_exact ns
    ((dep.replicaCount : ℚ) * dep.cpuRequestPerReplica)
    ((dep.replicaCount : ℚ) * dep.memoryRequestPerReplica) hlec hlem
  have halloc := ns_allocate_of_true
    (ns.deallocateResources ((dep.replicaCount : ℚ) * dep.cpuRequestPerReplica)
      ((dep.replicaCount : ℚ) * dep.memoryRequestPerReplica))
    ((k : ℚ) * dep.cpuRequestPerReplica) ((k : ℚ) * dep.memoryRequestPerReplica) hres
  have hcomp : replaceFirstNs
      (replaceFirstNs s.namespaces dep.namespaceName (fun _ =>
        ns.deallocateResources ((dep.replicaCount : ℚ) * dep.cpuRequestPerReplica)
          ((dep.replicaCount : ℚ) * dep.memoryRequestPerReplica)))
      dep.namespaceName (fun _ =>
        ((ns.deallocateResources ((dep.replicaCount : ℚ) * dep.cpuRequestPerReplica)
          ((dep.replicaCount : ℚ) * dep.memoryRequestPerReplica)).allocateResources
          ((k : ℚ) * dep.cpuRequestPerReplica)
          ((k : ℚ) * dep.memoryRequestPerReplica)).2) =
      replaceFirstNs s.namespaces dep.namespaceName (fun _ =>
        ((ns.deallocateResources ((dep.replicaCount : ℚ) * dep.cpuRequestPerReplica)
          ((dep.replicaCount : ℚ) * dep.memoryRequestPerReplica)).allocateResources
          ((k : ℚ) * dep.cpuRequestPerReplica)
          ((k : ℚ) * dep.memoryRequestPerReplica)).2) := by
    have hf : ∀ x : Namespace, x.name = dep.namespaceName →
        ((fun _ : Namespace =>
          ns.deallocateResources ((dep.replicaCount : ℚ) * dep.cpuRequestPerReplica)
            ((dep.replicaCount : ℚ) * dep.memoryRequestPerReplica)) x).name =
          dep.namespaceName := by
      intro x hx
      show (ns.deallocateResources ((dep.replicaCount : ℚ) * dep.cpuRequestPerReplica)
        ((dep.replicaCount : ℚ) * dep.memoryRequestPerReplica)).name = dep.namespaceName
      rw [hdealloc]
      exact hnsname
    exact replaceFirstNs_comp dep.namespaceName _ _ hf s.namespaces
  have hreplN : replaceFirstNs s.namespaces dep.namespaceName (fun _ =>
      ((ns.deallocateResources ((dep.replicaCount : ℚ) * dep.cpuRequestPerReplica)
        ((dep.replicaCount : ℚ) * dep.memoryRequestPerReplica)).allocateResources
        ((k : ℚ) * dep.cpuRequestPerReplica)
        ((k : ℚ) * dep.memoryRequestPerReplica)).2) =
      N1 ++ ((ns.deallocateResources ((dep.replicaCount : ℚ) * dep.cpuRequestPerReplica)
        ((dep.replicaCount : ℚ) * dep.memoryRequestPerReplica)).allocateResources
        ((k : ℚ) * dep.cpuRequestPerReplica)
        ((k : ℚ) * dep.memoryRequestPerReplica)).2 :: N2 := by
    conv_lhs => rw [hdecN]
    exact replaceFirstNs_decomp dep.namespaceName _ ns hnsname N1 N2 hfailN1
  have hreplD : replaceFirstDep s.deployments name
      (fun _ => Deployment.createPods { dep with replicaCount := k }) =
      D1 ++ Deployment.createPods { dep with replicaCount := k } :: D2 := by
    conv_lhs => rw [hdecD]
    exact replaceFirstDep_decomp name _ dep hdname D1 D2 hD1
  have hrname : (((ns.deallocateResources
      ((dep.replicaCount : ℚ) * dep.cpuRequestPerReplica)
      ((dep.replicaCount : ℚ) * dep.memoryRequestPerReplica)).allocateResources
      ((k : ℚ) * dep.cpuRequestPerReplica)
      ((k : ℚ) * dep.memoryRequestPerReplica)).2).name = ns.name := by
    rw [halloc, hdealloc]
  have hd1ns : (Deployment.createPods { dep with replicaCount := k }).namespaceName =
      dep.namespaceName := rfl
  have hd1rc : (Deployment.createPods { dep with replicaCount := k }).replicaCount = k := rfl
  have hd1c : (Deployment.createPods { dep with replicaCount := k }).cpuRequestPerReplica =
      dep.cpuRequestPerReplica := rfl
  have hd1m : (Deployment.createPods { dep with replicaCount := k }).memoryRequestPerReplica =
      dep.memoryRequestPerReplica := rfl
  refine ⟨?_, ?_, ?_, ?_⟩
  · show ((replaceFirstNs (replaceFirstNs s.namespaces dep.namespaceName _)
      dep.namespaceName _).map Namespace.name).Nodup
    rw [hcomp, hreplN, List.map_append, List.map_cons, hrname]
    rw [List.map_append, List.map_cons] at hndN
    exact hndN
  · intro d hd
    replace hd : d ∈ D1 ++ Deployment.createPods { dep with replicaCount := k } :: D2 := by
      rw [← hreplD]
      exact hd
    show d.namespaceName ∈ ((replaceFirstNs (replaceFirstNs s.namespaces dep.namespaceName _)
      dep.namespaceName _).map Namespace.name)
    rw [hcomp, hreplN, List.map_append, List.map_cons, hrname]
    have hmemSame : ∀ x : Deployment, x ∈ s.deployments →
        x.namespaceName ∈ N1.map Namespace.name ++ ns.name :: N2.map Namespace.name := by
      intro x hx
      have := hex x hx
      rw [hdecN, List.map_append, List.map_cons] at this
      exact this
    rcases List.mem_append.mp hd with hd | hd
    · exact hmemSame d (by rw [hdecD]; exact List.mem_append_left _ hd)
    · rcases List.mem_cons.mp hd with rfl | hd
      · rw [hd1ns]
        exact hmemSame dep hdepmem
      · exact hmemSame d (by
          rw [hdecD]; exact List.mem_append_right _ (List.mem_cons_of_mem _ hd))
  · intro d hd
    replace hd : d ∈ D1 ++ Deployment.createPods { dep with replicaCount := k } :: D2 := by
      rw [← hreplD]
      exact hd
    rcases List.mem_append.mp hd with hd | hd
    · exact hpos d (by rw [hdecD]; exact List.mem_append_left _ hd)
    · rcases List.mem_cons.mp hd with rfl | hd
      · exact hpos dep hdepmem
      · exact hpos d (by
          rw [hdecD]; exact List.mem_append_right _ (List.mem_cons_of_mem _ hd))
  · intro nx hmem
    replace hmem : nx ∈ N1 ++
        ((ns.deallocateResources ((dep.replicaCount : ℚ) * dep.cpuRequestPerReplica)
          ((dep.replicaCount : ℚ) * dep.memoryRequestPerReplica)).allocateResources
          ((k : ℚ) * dep.cpuRequestPerReplica)
          ((k : ℚ) * dep.memoryRequestPerReplica)).2 :: N2 := by
      rw [← hreplN, ← hcomp]
      exact hmem
    show nx.cpuAllocated = depsCpuSum (replaceFirstDep s.deployments name
        (fun _ => Deployment.createPods { dep with replicaCount := k })) nx.name
      ∧ nx.memoryAllocated = depsMemSum (replaceFirstDep s.deployments name
        (fun _ => Deployment.createPods { dep with replicaCount := k })) nx.name
    rw [hreplD, depsCpuSum_middle, depsMemSum_middle, hd1ns, hd1rc, hd1c, hd1m]
    rcases List.mem_append.mp hmem with hx | hx
    · have hne : ¬(dep.namespaceName = nx.name) := fun h => hfailN1 nx hx h.symm
      rw [if_neg hne, if_neg hne]
      have hx' : nx ∈ s.namespaces := by
        rw [hdecN]
        exact List.mem_append_left _ hx
      rcases hacc nx hx' with ⟨hcx, hmx⟩
      have hcx' : nx.cpuAllocated = depsCpuSum s.deployments nx.name := hcx
      have hmx' : nx.memoryAllocated = depsMemSum s.deployments nx.name := hmx
      rw [hdecD, depsCpuSum_middle, if_neg hne] at hcx'
      rw [hdecD, depsMemSum_middle, if_neg hne] at hmx'
      exact ⟨hcx', hmx'⟩
    · rcases List.mem_cons.mp hx with rfl | hx
      · rw [hrname]
        have hc2 : (((ns.deallocateResources
            ((dep.replicaCount : ℚ) * dep.cpuRequestPerReplica)
            ((dep.replicaCount : ℚ) * dep.memoryRequestPerReplica)).allocateResources
            ((k : ℚ) * dep.cpuRequestPerReplica)
            ((k : ℚ) * dep.memoryRequestPerReplica)).2).cpuAllocated =
            ns.cpuAllocated - (dep.replicaCount : ℚ) * dep.cpuRequestPerReplica
              + (k : ℚ) * dep.cpuRequestPerReplica := by
          rw [halloc, hdealloc]
        have hm2 : (((ns.deallocateResources
            ((dep.replicaCount : ℚ) * dep.cpuRequestPerReplica)
            ((dep.replicaCount : ℚ) * dep.memoryRequestPerReplica)).allocateResources
            ((k : ℚ) * dep.cpuRequestPerReplica)
            ((k : ℚ) * dep.memoryRequestPerReplica)).2).memoryAllocated =
            ns.memoryAllocated - (dep.replicaCount : ℚ) * dep.memoryRequestPerReplica
              + (k : ℚ) * dep.memoryRequestPerReplica := by
          rw [halloc, hdealloc]
        rw [hc2, hm2, if_pos hnsname.symm, if_pos hnsname.symm]
        constructor
        · linarith [hcns']
        · linarith [hmns']
      · have hne : ¬(dep.namespaceName = nx.name) := fun h =>
          hrightN nx hx (hnsname.trans h).symm
        rw [if_neg hne, if_neg hne]
        have hx' : nx ∈ s.namespaces := by
          rw [hdecN]
          exact List.mem_append_right _ (List.mem_cons_of_mem _ hx)
        rcases hacc nx hx' with ⟨hcx, hmx⟩
        have hcx' : nx.cpuAllocated = depsCpuSum s.deployments nx.name := hcx
        have hmx' : nx.memoryAllocated = depsMemSum s.deployments nx.name := hmx
        rw [hdecD, depsCpuSum_middle, if_neg hne] at hcx'
        rw [hdecD, depsMemSum_middle, if_neg hne] at hmx'
        exact ⟨hcx', hmx'⟩

theorem invB_scaleDeployment (s : SimState) (name : String) (k : Nat)
    (hinv : InvB s) (hsucc : (scaleDeployment s name k).1 = true) :
    InvB (scaleDeployment s name k).2 := by
  unfold scaleDeployment at hsucc ⊢
  cases h1 : s.deployments.find? (fun d => d.name = name) with
  | none =>
    rw [h1] at hsucc
    simp at hsucc
  | some dep =>
    rw [h1] at hsucc
    dsimp only at hsucc ⊢
    cases h2 : lookupNamespace s dep.namespaceName with
    | none =>
      rw [h2] at hsucc
      simp at hsucc
    | some ns =>
      rw [h2] at hsucc
      dsimp only at hsucc ⊢
      split
      next hres =>
        refine invB_transport (allocateDeploymentPods_namespaces _ _)
          (allocateDeploymentPods_map_depFields _ _) ?_
        exact invB_scale_core s name k dep ns h1 h2 hres hinv
          (unbindPods s.workerNodes dep.pods)
      next hres =>
        rw [if_neg hres] at hsucc
        simp at hsucc

/-- Core of `deleteDeployment` preservation: removing a deployment and
deallocating its footprint from its namespace keeps the accounting equations. -/
theorem invB_delete_core (s : SimState) (i : Nat) (dep : Deployment)
    (h2 : s.deployments[i]? = some dep) (hinv : InvB s) (nodes1 : List WorkerNode) :
    InvB { s with
      workerNodes := nodes1,
      namespaces := replaceFirstNs s.namespaces dep.namespaceName (fun n =>
        { n.deallocateResources ((dep.replicaCount : ℚ) * dep.cpuRequestPerReplica)
            ((dep.replicaCount : ℚ) * dep.memoryRequestPerReplica) with
          deployments := (n.deallocateResources
            ((dep.replicaCount : ℚ) * dep.cpuRequestPerReplica)
            ((dep.replicaCount : ℚ) * dep.memoryRequestPerReplica)).deployments.erase
              dep.name }),
      deployments := s.deployments.eraseIdx i } := by
  obtain ⟨hnd, hex, hpos, hacc⟩ := hinv
  have hdecD := getElem?_eq_decomp s.deployments i dep h2
  have hdepmem : dep ∈ s.deployments := by
    conv_lhs => rw [hdecD]
    exact List.mem_append_right _ (List.mem_cons_self _ _)
  have hnm : dep.namespaceName ∈ s.namespaces.map Namespace.name := hex dep hdepmem
  have hfind : ∃ nsx, s.namespaces.find? (fun x => x.name = dep.namespaceName) = some nsx := by
    rcases List.mem_map.mp hnm with ⟨nsx, hmemx, hnamex⟩
    have hsome : (s.namespaces.find? (fun x => x.name = dep.namespaceName)).isSome := by
      rw [List.find?_isSome]
      exact ⟨nsx, hmemx, by simp [hnamex]⟩
    rcases Option.isSome_iff_exists.mp hsome with ⟨a, ha⟩
    exact ⟨a, ha⟩
  rcases hfind with ⟨ns, h3⟩
  have hnsname : ns.name = dep.namespaceName := by
    have := List.find?_some h3
    exact of_decide_eq_true this
  rcases find?_decomp _ s.namespaces ns h3 with ⟨N1, N2, hdecN, hfailN⟩
  have hfailN1 : ∀ x ∈ N1, ¬x.name = dep.namespaceName := by
    intro x hx hxn
    have := hfailN x hx
    rw [hxn] at this
    simp at this
  have hndN := hnd
  rw [hdecN] at hndN
  have hrightN : ∀ x ∈ N2, ¬x.name = ns.name := nodup_names_right hndN
  have hnsmem : ns ∈ s.namespaces := by
    rw [hdecN]
    exact List.mem_append_right _ (List.mem_cons_self _ _)
  have hD1c : ∀ d ∈ s.deployments.take i, 0 ≤ d.cpuRequestPerReplica := fun d hd =>
    le_of_lt (hpos d ((List.take_sublist i s.deployments).mem hd)).1
  have hD1m : ∀ d ∈ s.deployments.take i, 0 ≤ d.memoryRequestPerReplica := fun d hd =>
    le_of_lt (hpos d ((List.take_sublist i s.deployments).mem hd)).2
  have hD2c : ∀ d ∈ s.deployments.drop (i + 1), 0 ≤ d.cpuRequestPerReplica := fun d hd =>
    le_of_lt (hpos d ((List.drop_sublist (i + 1) s.deployments).mem hd)).1
  have hD2m : ∀ d ∈ s.deployments.drop (i + 1), 0 ≤ d.memoryRequestPerReplica := fun d hd =>
    le_of_lt (hpos d ((List.drop_sublist (i + 1) s.deployments).mem hd)).2
  rcases hacc ns hnsmem with ⟨hcns, hmns⟩
  have hcns' : ns.cpuAllocated = depsCpuSum s.deployments ns.name := hcns
  have hmns' : ns.memoryAllocated = depsMemSum s.deployments ns.name := hmns
  rw [hdecD, depsCpuSum_middle, if_pos hnsname.symm] at hcns'
  rw [hdecD, depsMemSum_middle, if_pos hnsname.symm] at hmns'
  have hlec : (dep.replicaCount : ℚ) * dep.cpuRequestPerReplica ≤ ns.cpuAllocated := by
    have hn1 := depsCpuSum_nonneg (s.deployments.take i) ns.name hD1c
    have hn2 := depsCpuSum_nonneg (s.deployments.drop (i + 1)) ns.name hD2c
    linarith [hcns']
  have hlem : (dep.replicaCount : ℚ) * dep.memoryRequestPerReplica ≤ ns.memoryAllocated := by
    have hn1 := depsMemSum_nonneg (s.deployments.take i) ns.name hD1m
    have hn2 := depsMemSum_nonneg (s.deployments.drop (i + 1)) ns.name hD2m
    linarith [hmns']
  have hdealloc := ns_deallocate_exact ns
    ((dep.replicaCount : ℚ) * dep.cpuRequestPerReplica)
    ((dep.replicaCount : ℚ) * dep.memoryRequestPerReplica) hlec hlem
  have herase := eraseIdx_eq_decomp s.deployments i dep h2
  have hrepl : replaceFirstNs s.namespaces dep.namespaceName (fun n =>
      { n.deallocateResources ((dep.replicaCount : ℚ) * dep.cpuRequestPerReplica)
          ((dep.replicaCount : ℚ) * dep.memoryRequestPerReplica) with
        deployments := (n.deallocateResources
          ((dep.replicaCount : ℚ) * dep.cpuRequestPerReplica)
          ((dep.replicaCount : ℚ) * dep.memoryRequestPerReplica)).deployments.erase
            dep.name }) =
      N1 ++ { ns.deallocateResources ((dep.replicaCount : ℚ) * dep.cpuRequestPerReplica)
          ((dep.replicaCount : ℚ) * dep.memoryRequestPerReplica) with
        deployments := (ns.deallocateResources
          ((dep.replicaCount : ℚ) * dep.cpuRequestPerReplica)
          ((dep.replicaCount : ℚ) * dep.memoryRequestPerReplica)).deployments.erase
            dep.name } :: N2 := by
    conv_lhs => rw [hdecN]
    exact replaceFirstNs_decomp dep.namespaceName _ ns hnsname N1 N2 hfailN1
  have hgname : ({ ns.deallocateResources ((dep.replicaCount : ℚ) * dep.cpuRequestPerReplica)
      ((dep.replicaCount : ℚ) * dep.memoryRequestPerReplica) with
      deployments := (ns.deallocateResources
        ((dep.replicaCount : ℚ) * dep.cpuRequestPerReplica)
        ((dep.replicaCount : ℚ) * dep.memoryRequestPerReplica)).deployments.erase
          dep.name } : Namespace).name = ns.name := by
    rw [hdealloc]
  have hgc : ({ ns.deallocateResources ((dep.replicaCount : ℚ) * dep.cpuRequestPerReplica)
      ((dep.replicaCount : ℚ) * dep.memoryRequestPerReplica) with
      deployments := (ns.deallocateResources
        ((dep.replicaCount : ℚ) * dep.cpuRequestPerReplica)
        ((dep.replicaCount : ℚ) * dep.memoryRequestPerReplica)).deployments.erase
          dep.name } : Namespace).cpuAllocated =
      ns.cpuAllocated - (dep.replicaCount : ℚ) * dep.cpuRequestPerReplica := by
    rw [hdealloc]
  have hgm : ({ ns.deallocateResources ((dep.replicaCount : ℚ) * dep.cpuRequestPerReplica)
      ((dep.replicaCount : ℚ) * dep.memoryRequestPerReplica) with
      deployments := (ns.deallocateResources
        ((dep.replicaCount : ℚ) * dep.cpuRequestPerReplica)
        ((dep.replicaCount : ℚ) * dep.memoryRequestPerReplica)).deployments.erase
          dep.name } : Namespace).memoryAllocated =
      ns.memoryAllocated - (dep.replicaCount : ℚ) * dep.memoryRequestPerReplica := by
    rw [hdealloc]
  refine ⟨?_, ?_, ?_, ?_⟩
  · show ((replaceFirstNs s.namespaces dep.namespaceName _).map Namespace.name).Nodup
    rw [hrepl, List.map_append, List.map_cons, hgname]
    rw [List.map_append, List.map_cons] at hndN
    exact hndN
  · intro d hd
    replace hd : d ∈ s.deployments.take i ++ s.deployments.drop (i + 1) := by
      rw [← herase]
      exact hd
    show d.namespaceName ∈ ((replaceFirstNs s.namespaces dep.namespaceName _).map
      Namespace.name)
    rw [hrepl, List.map_append, List.map_cons, hgname]
    have hd' : d ∈ s.deployments := by
      rcases List.mem_append.mp hd with hd | hd
      · exact (List.take_sublist i s.deployments).mem hd
      · exact (List.drop_sublist (i + 1) s.deployments).mem hd
    have := hex d hd'
    rw [hdecN, List.map_append, List.map_cons] at this
    exact this
  · intro d hd
    replace hd : d ∈ s.deployments.take i ++ s.deployments.drop (i + 1) := by
      rw [← herase]
      exact hd
    rcases List.mem_append.mp hd with hd | hd
    · exact hpos d ((List.take_sublist i s.deployments).mem hd)
    · exact hpos d ((List.drop_sublist (i + 1) s.deployments).mem hd)
  · intro nx hmem
    replace hmem : nx ∈ N1 ++
        { ns.deallocateResources ((dep.replicaCount : ℚ) * dep.cpuRequestPerReplica)
            ((dep.replicaCount : ℚ) * dep.memoryRequestPerReplica) with
          deployments := (ns.deallocateResources
            ((dep.replicaCount : ℚ) * dep.cpuRequestPerReplica)
            ((dep.replicaCount : ℚ) * dep.memoryRequestPerReplica)).deployments.erase
              dep.name } :: N2 := by
      rw [← hrepl]
      exact hmem
    show nx.cpuAllocated = depsCpuSum (s.deployments.eraseIdx i) nx.name
      ∧ nx.memoryAllocated = depsMemSum (s.deployments.eraseIdx i) nx.name
    rw [herase, depsCpuSum_append, depsMemSum_append]
    rcases List.mem_append.mp hmem with hx | hx
    · have hne : ¬(dep.namespaceName = nx.name) := fun h => hfailN1 nx hx h.symm
      have hx' : nx ∈ s.namespaces := by
        rw [hdecN]
        exact List.mem_append_left _ hx
      rcases hacc nx hx' with ⟨hcx, hmx⟩
      have hcx' : nx.cpuAllocated = depsCpuSum s.deployments nx.name := hcx
      have hmx' : nx.memoryAllocated = depsMemSum s.deployments nx.name := hmx
      rw [hdecD, depsCpuSum_middle, if_neg hne, zero_add] at hcx'
      rw [hdecD, depsMemSum_middle, if_neg hne, zero_add] at hmx'
      exact ⟨hcx', hmx'⟩
    · rcases List.mem_cons.mp hx with rfl | hx
      · rw [hgname, hgc, hgm]
        constructor
        · linarith [hcns']
        · linarith [hmns']
      · have hne : ¬(dep.namespaceName = nx.name) := fun h =>
          hrightN nx hx (hnsname.trans h).symm
        have hx' : nx ∈ s.namespaces := by
          rw [hdecN]
          exact List.mem_append_right _ (List.mem_cons_of_mem _ hx)
        rcases hacc nx hx' with ⟨hcx, hmx⟩
        have hcx' : nx.cpuAllocated = depsCpuSum s.deployments nx.name := hcx
        have hmx' : nx.memoryAllocated = depsMemSum s.deployments nx.name := hmx
        rw [hdecD, depsCpuSum_middle, if_neg hne, zero_add] at hcx'
        rw [hdecD, depsMemSum_middle, if_neg hne, zero_add] at hmx'
        exact ⟨hcx', hmx'⟩

theorem invB_deleteDeployment (s : SimState) (name : String) (hinv : InvB s) :
    InvB (deleteDeployment s name).2 := by
  unfold deleteDeployment
  cases h1 : s.deployments.findIdx? (fun d => d.name = name) with
  | none => exact hinv
  | some i =>
    dsimp only
    cases h2 : s.deployments[i]? with
    | none => exact hinv
    | some dep =>
      dsimp only
      exact invB_delete_core s i dep h2 hinv (unbindPods s.workerNodes dep.pods)

theorem invB_synthesizeDeployments (rng : Nat → Nat) (i nd : Nat) (c m : ℚ)
    (s : SimState) (hinv : InvB s) : InvB (synthesizeDeployments rng i nd c m s) := by
  unfold synthesizeDeployments
  apply foldl_invariant _ InvB _ _ _ hinv
  intro b j hb
  apply invB_addDeployment _ _ _ _ _ _ ?_ ?_ hb
  · exact lt_of_lt_of_le (by norm_num) (le_max_left _ _)
  · exact lt_of_lt_of_le (by norm_num) (le_max_left _ _)

theorem invB_setSimulatedWorkloadFactor (s : SimState) (f : ℚ) (rng : Nat → Nat)
    (hinv : InvB s) : InvB (setSimulatedWorkloadFactor s f rng).2 := by
  unfold setSimulatedWorkloadFactor
  split
  · exact hinv
  · dsimp only
    have hS1 : InvB
        { s with
          simulatedWorkloadFactor := f,
          workerNodes := s.workerNodes.map resetNodeAllocation,
          namespaces := [],
          deployments := [] } := by
      refine ⟨List.nodup_nil, ?_, ?_, ?_⟩
      · intro d hd
        exact absurd hd (List.not_mem_nil d)
      · intro d hd
        exact absurd hd (List.not_mem_nil d)
      · intro nx hmem
        exact absurd hmem (List.not_mem_nil nx)
    split
    · apply foldl_invariant _ InvB _ _ _ hS1
      intro b i hb
      exact invB_synthesizeDeployments _ _ _ _ _ _
        (invB_createNamespace b (simNsName i) _ _ hb)
    · exact hS1

theorem invB_initialSimulator : InvB initialSimulator := by
  have hns : initialSimulator.namespaces = [] := by decide
  have hdep : initialSimulator.deployments = [] := by decide
  refine ⟨?_, ?_, ?_, ?_⟩
  · rw [hns]
    exact List.nodup_nil
  · intro d hd
    rw [hdep] at hd
    exact absurd hd (List.not_mem_nil d)
  · intro d hd
    rw [hdep] at hd
    exact absurd hd (List.not_mem_nil d)
  · intro nx hmem
    rw [hns] at hmem
    exact absurd hmem (List.not_mem_nil nx)

theorem invB_applyOp (s : SimState) (op : Op) (hinv : InvB s) (hv : validOp op = true)
    (hok : scaleOkOp s op = true) : InvB (applyOp s op) := by
  cases op with
  | addWorkerNode name cpu mem => exact invB_addWorkerNode s name cpu mem hinv
  | setTotalWorkerNodes t => exact invB_setTotalWorkerNodes s t hinv
  | createNamespace n c m => exact invB_createNamespace s n c m hinv
  | addDeployment n nsn rc c m =>
    unfold validOp at hv
    rw [Bool.and_eq_true] at hv
    rcases hv with ⟨hc, hm⟩
    exact invB_addDeployment s n nsn rc c m (of_decide_eq_true hc) (of_decide_eq_true hm) hinv
  | scaleDeployment n k => exact invB_scaleDeployment s n k hinv hok
  | deleteDeployment n => exact invB_deleteDeployment s n hinv
  | setSimulatedWorkloadFactor f rng => exact invB_setSimulatedWorkloadFactor s f rng hinv

theorem invB_runOps : ∀ (ops : List Op) (s : SimState), InvB s →
    (∀ op ∈ ops, validOp op = true) → scalesOk s ops = true → InvB (runOps s ops) := by
  intro ops
  induction ops with
  | nil => intro s h _ _; exact h
  | cons op rest ih =>
    intro s h hv hsc
    unfold scalesOk at hsc
    rw [Bool.and_eq_true] at hsc
    show InvB (runOps (applyOp s op) rest)
    exact ih (applyOp s op)
      (invB_applyOp s op h (hv op (List.mem_cons_self _ _)) hsc.1)
      (fun o ho => hv o (List.mem_cons_of_mem _ ho)) hsc.2

/-- C1 counterexample: the claim is false as stated.  After the mutating
operation `scaleDeployment("d", 4)` — whose new footprint `4 * (3, 40)` exceeds
the quota `(10, 100)`, so the call fails and rolls back the namespace counters
while leaving `replicaCount = 4` — the namespace `"a"` has `cpuAllocated = 3`
but the deployment sum is `4 * 3 = 12`. -/
theorem claim_C1_counterexample :
    ∃ ns ∈ (runOps initialSimulator demoOpsScaleFail).namespaces,
      ¬(ns.cpuAllocated = nsCpuSum (runOps initialSimulator demoOpsScaleFail) ns.name) := by
  decide

/-- C1 (amended): after any sequence of interface operations in which every
`scaleDeployment` reports success (and `addDeployment` receives the spec's
positive per-replica requests), every namespace's `cpuAllocated` equals the sum
of `cpuRequestPerReplica * replicaCount` over the deployments currently
registered in that namespace, and likewise `memoryAllocated` for memory.  The
success proviso is necessary: a failed `scaleDeployment` restores the namespace
counters but leaves the deployment's `replicaCount` at the new value
(see the counterexample). -/
theorem claim_C1 (ops : List Op) (hv : ∀ op ∈ ops, validOp op = true)
    (hok : scalesOk initialSimulator ops = true) :
    ∀ ns ∈ (runOps initialSimulator ops).namespaces,
      ns.cpuAllocated = nsCpuSum (runOps initialSimulator ops) ns.name
      ∧ ns.memoryAllocated = nsMemSum (runOps initialSimulator ops) ns.name := by
  have h := invB_runOps ops initialSimulator invB_initialSimulator hv hok
  exact h.2.2.2

/-- C1 witness: a run ending in a successful scale (1 → 2 replicas, within
quota) satisfies the namespace accounting equations. -/
theorem claim_C1_witness :
    (∀ op ∈ demoOpsScaleOk, validOp op = true)
    ∧ scalesOk initialSimulator demoOpsScaleOk = true
    ∧ ∀ ns ∈ (runOps initialSimulator demoOpsScaleOk).namespaces,
        ns.cpuAllocated = nsCpuSum (runOps initialSimulator demoOpsScaleOk) ns.name
        ∧ ns.memoryAllocated = nsMemSum (runOps initialSimulator demoOpsScaleOk) ns.name :=
  ⟨by decide, by decide, claim_C1 demoOpsScaleOk (by decide) (by decide)⟩

end OpenShiftSim
